import Mathlib

/-!
Verification development for the scraper service.

Python strings are modelled as lists of characters (`Str`), HTML documents
as trees of `Node` values (the lenient third-party HTML parser and the
serializer of the `bs4` library are external collaborators and appear as
explicit function parameters `parse`/`render`), fallible operations return
`Except ErrorCode`, and machine state (the cache database, wall-clock time)
is passed explicitly.
-/

/-- Python `str` values, modelled as lists of characters. -/
abbrev Str := List Char

/-- Lowercase a string, as Python `str.lower()` on ASCII text. -/
def strLower (s : Str) : Str := s.map Char.toLower

/-- Characters Python's `\s` regex class and `str.split()` treat as whitespace
(ASCII fragment). -/
def pySpace (c : Char) : Bool :=
  c = ' ' || c = '\t' || c = '\n' || c = '\r' || c = '\x0b' || c = '\x0c'

/-- Split a string on whitespace runs, dropping empty pieces, as Python
`str.split()` with no argument (used by bs4 for multi-valued attributes). -/
def splitWs (s : Str) : List Str :=
  (s.splitOnP pySpace).filter (· ≠ [])

/-- Join a list of strings with a separator, as Python `sep.join(xs)`. -/
def joinSep (sep : Str) : List Str → Str
  | [] => []
  | [x] => x
  | x :: y :: r => x ++ sep ++ joinSep sep (y :: r)

/-- `app/parsing/content_parser.py: _clean_text` — collapse whitespace runs to
single spaces and trim the ends (`re.sub(r"\s+", " ", text).strip()`). -/
def clean_text (s : Str) : Str := joinSep [' '] (splitWs s)

/-! ## Document model

`bs4` documents are element trees; the soup object's children form the
top-level node list.  Attributes are kept as ordered association lists
(Python dicts preserve insertion order); `attrGet` is `Tag.get`. -/

/-- A node of the parsed HTML tree: element (tag, attributes, children),
text, or comment. -/
inductive Node where
  | elem (tag : Str) (attrs : List (Str × Str)) (children : List Node)
  | text (s : Str)
  | comment (s : Str)

/-- First value bound to an attribute name, as `Tag.get(name)`. -/
def attrGet (attrs : List (Str × Str)) (k : Str) : Option Str :=
  (attrs.find? (fun p => p.1 = k)).map (·.2)

/-- `app/parsing/html_cleaner.py: STRIP_TAGS`. -/
def STRIP_TAGS : List Str :=
  ["script".data, "style".data, "noscript".data, "iframe".data,
   "canvas".data, "svg".data, "object".data, "embed".data]

/-- `app/parsing/html_cleaner.py: ALLOWED_ATTRS`. -/
def ALLOWED_ATTRS : List Str :=
  ["id".data, "class".data, "href".data, "src".data, "alt".data,
   "title".data, "rel".data, "name".data, "content".data, "type".data,
   "aria-label".data]

/-- The `type` attribute value a script must carry (case-insensitively) to
survive `_strip_tags`: `(el.get("type") or "").lower() == "application/ld+json"`. -/
def isLdJsonScript (tag : Str) (attrs : List (Str × Str)) : Bool :=
  tag = "script".data &&
    strLower ((attrGet attrs "type".data).getD []) = "application/ld+json".data

/-- An element `_strip_tags` decomposes: its tag is in `STRIP_TAGS` and it is
not an exempt JSON-LD script. -/
def strippable (tag : Str) (attrs : List (Str × Str)) : Bool :=
  STRIP_TAGS.contains tag && !isLdJsonScript tag attrs

mutual
/-- `app/parsing/html_cleaner.py: _strip_tags` on a single node: decomposing an
element removes its whole subtree, so a node survives iff neither it nor any
ancestor is strippable. -/
def stripTagsNode : Node → Option Node
  | .elem t a cs =>
      if strippable t a then none else some (.elem t a (stripTagsList cs))
  | .text s => some (.text s)
  | .comment s => some (.comment s)
/-- `_strip_tags` on a node list. -/
def stripTagsList : List Node → List Node
  | [] => []
  | n :: r =>
      match stripTagsNode n with
      | none => stripTagsList r
      | some n' => n' :: stripTagsList r
end

/-- The per-attribute predicate of `app/parsing/html_cleaner.py:
_clean_attributes`: drop every `on*` attribute (lowered name), keep exact
members of `ALLOWED_ATTRS` and `data-*` attributes, drop the rest. -/
def keepAttr (p : Str × Str) : Bool :=
  !("on".data.isPrefixOf (strLower p.1)) &&
    (ALLOWED_ATTRS.contains p.1 || "data-".data.isPrefixOf (strLower p.1))

mutual
/-- `_clean_attributes` on a single node (applied to every element of the
tree by `soup.find_all(True)`). -/
def cleanAttributesNode : Node → Node
  | .elem t a cs => .elem t (a.filter keepAttr) (cleanAttributesList cs)
  | .text s => .text s
  | .comment s => .comment s
/-- `_clean_attributes` on a node list. -/
def cleanAttributesList : List Node → List Node
  | [] => []
  | n :: r => cleanAttributesNode n :: cleanAttributesList r
end

mutual
/-- `app/parsing/html_cleaner.py: _strip_comments` below a single node. -/
def stripCommentsNode : Node → Node
  | .elem t a cs => .elem t a (stripCommentsList cs)
  | .text s => .text s
  | .comment s => .comment s
/-- `_strip_comments` on a node list: every comment node (at any depth) is
extracted. -/
def stripCommentsList : List Node → List Node
  | [] => []
  | .comment _ :: r => stripCommentsList r
  | n :: r => stripCommentsNode n :: stripCommentsList r
end

/-- The three cleaning passes of `app/parsing/html_cleaner.py:
build_clean_soup`, at the tree level: strip tags, then clean attributes,
then strip comments. -/
def cleanDoc (d : List Node) : List Node :=
  stripCommentsList (cleanAttributesList (stripTagsList d))

/-- `app/parsing/html_cleaner.py: build_clean_soup` — the third-party lenient
HTML parser (`BeautifulSoup(raw_html, "lxml")`) is an external collaborator,
passed as `parse`. -/
def build_clean_soup (parse : Str → List Node) (raw_html : Str) : List Node :=
  cleanDoc (parse raw_html)

/-- `app/parsing/html_cleaner.py: clean_html` — `str(build_clean_soup(html))`;
the bs4 serializer is the external parameter `render`. -/
def clean_html (parse : Str → List Node) (render : List Node → Str)
    (html : Str) : Str :=
  render (build_clean_soup parse html)

/-- `app/parsing/html_cleaner.py: clean_html_minimal` — one pass of
`build_clean_soup` followed by serialization, identical in body to
`clean_html`. -/
def clean_html_minimal (parse : Str → List Node) (render : List Node → Str)
    (html : Str) : Str :=
  render (build_clean_soup parse html)

/-! ## Invariants of the cleaning passes -/

mutual
/-- No element of this subtree is strippable. -/
def noStrippableNode : Node → Bool
  | .elem t a cs => !strippable t a && noStrippableList cs
  | .text _ => true
  | .comment _ => true
/-- No element of these subtrees is strippable. -/
def noStrippableList : List Node → Bool
  | [] => true
  | n :: r => noStrippableNode n && noStrippableList r
end

/-- `_clean_attributes` keeps every `type` attribute unchanged, so attribute
filtering does not affect the JSON-LD exemption test. -/
theorem attrGet_filter_type (a : List (Str × Str)) :
    attrGet (a.filter keepAttr) "type".data = attrGet a "type".data := by
  induction a with
  | nil => rfl
  | cons p r ih =>
      by_cases hp : p.1 = "type".data
      · have hk : keepAttr p = true := by
          unfold keepAttr
          rw [hp]
          decide
        simp [attrGet, List.filter_cons, hk, List.find?, hp]
      · rcases hkeep : keepAttr p with _ | _
        · simpa [attrGet, List.filter_cons, hkeep, List.find?, hp] using ih
        · simpa [attrGet, List.filter_cons, hkeep, List.find?, hp] using ih

/-- Strippability is invariant under attribute cleaning. -/
theorem strippable_filter (t : Str) (a : List (Str × Str)) :
    strippable t (a.filter keepAttr) = strippable t a := by
  unfold strippable isLdJsonScript
  rw [attrGet_filter_type]

mutual
/-- Every node surviving `_strip_tags` contains no strippable element. -/
theorem stripTags_noStrippable_node (n : Node) :
    (stripTagsNode n).elim True (fun n' => noStrippableNode n' = true) := by
  match n with
  | .elem t a cs =>
      rcases hs : strippable t a with _ | _
      · have hl := stripTags_noStrippable_list cs
        simp [stripTagsNode, hs, noStrippableNode, hl]
      · simp [stripTagsNode, hs]
  | .text s => simp [stripTagsNode, noStrippableNode]
  | .comment s => simp [stripTagsNode, noStrippableNode]
/-- Every node list produced by `_strip_tags` contains no strippable element. -/
theorem stripTags_noStrippable_list (l : List Node) :
    noStrippableList (stripTagsList l) = true := by
  match l with
  | [] => simp [stripTagsList, noStrippableList]
  | n :: r =>
      have hn := stripTags_noStrippable_node n
      have hr := stripTags_noStrippable_list r
      rcases hh : stripTagsNode n with _ | n'
      · simpa [stripTagsList, hh] using hr
      · rw [hh] at hn
        simp only [Option.elim] at hn
        simp [stripTagsList, hh, noStrippableList, hn, hr]
end

mutual
/-- Attribute cleaning preserves the absence of strippable elements. -/
theorem cleanAttributes_noStrippable_node (n : Node)
    (h : noStrippableNode n = true) :
    noStrippableNode (cleanAttributesNode n) = true := by
  match n with
  | .elem t a cs =>
      simp only [noStrippableNode, Bool.and_eq_true] at h
      have hl := cleanAttributes_noStrippable_list cs h.2
      simp [cleanAttributesNode, noStrippableNode, strippable_filter, h.1, hl]
  | .text s => simpa [cleanAttributesNode] using h
  | .comment s => simpa [cleanAttributesNode] using h
/-- Attribute cleaning preserves the absence of strippable elements. -/
theorem cleanAttributes_noStrippable_list (l : List Node)
    (h : noStrippableList l = true) :
    noStrippableList (cleanAttributesList l) = true := by
  match l with
  | [] => simpa [cleanAttributesList] using h
  | n :: r =>
      simp only [noStrippableList, Bool.and_eq_true] at h
      have hn := cleanAttributes_noStrippable_node n h.1
      have hr := cleanAttributes_noStrippable_list r h.2
      simp [cleanAttributesList, noStrippableList, hn, hr]
end

mutual
/-- Comment stripping preserves the absence of strippable elements. -/
theorem stripComments_noStrippable_node (n : Node)
    (h : noStrippableNode n = true) :
    noStrippableNode (stripCommentsNode n) = true := by
  match n with
  | .elem t a cs =>
      simp only [noStrippableNode, Bool.and_eq_true] at h
      have hl := stripComments_noStrippable_list cs h.2
      simp [stripCommentsNode, noStrippableNode, h.1, hl]
  | .text s => simpa [stripCommentsNode] using h
  | .comment s => simpa [stripCommentsNode] using h
/-- Comment stripping preserves the absence of strippable elements. -/
theorem stripComments_noStrippable_list (l : List Node)
    (h : noStrippableList l = true) :
    noStrippableList (stripCommentsList l) = true := by
  match l with
  | [] => simpa [stripCommentsList] using h
  | n :: r =>
      simp only [noStrippableList, Bool.and_eq_true] at h
      have hr := stripComments_noStrippable_list r h.2
      match n with
      | .comment s => simpa [stripCommentsList] using hr
      | .elem t a cs =>
          have hn := stripComments_noStrippable_node (.elem t a cs) h.1
          simp [stripCommentsList, noStrippableList, hn, hr]
      | .text s =>
          have hn := stripComments_noStrippable_node (.text s) h.1
          simp [stripCommentsList, noStrippableList, hn, hr]
end

mutual
/-- `_strip_tags` is the identity on trees without strippable elements. -/
theorem stripTags_id_node (n : Node) (h : noStrippableNode n = true) :
    stripTagsNode n = some n := by
  match n with
  | .elem t a cs =>
      simp only [noStrippableNode, Bool.and_eq_true, Bool.not_eq_true'] at h
      have hl := stripTags_id_list cs h.2
      simp [stripTagsNode, h.1, hl]
  | .text s => simp [stripTagsNode]
  | .comment s => simp [stripTagsNode]
/-- `_strip_tags` is the identity on node lists without strippable elements. -/
theorem stripTags_id_list (l : List Node) (h : noStrippableList l = true) :
    stripTagsList l = l := by
  match l with
  | [] => simp [stripTagsList]
  | n :: r =>
      simp only [noStrippableList, Bool.and_eq_true] at h
      have hn := stripTags_id_node n h.1
      have hr := stripTags_id_list r h.2
      simp [stripTagsList, hn, hr]
end

mutual
/-- `_clean_attributes` is idempotent on a node. -/
theorem cleanAttributes_idem_node (n : Node) :
    cleanAttributesNode (cleanAttributesNode n) = cleanAttributesNode n := by
  match n with
  | .elem t a cs =>
      have hl := cleanAttributes_idem_list cs
      simp [cleanAttributesNode, List.filter_filter, hl]
  | .text s => simp [cleanAttributesNode]
  | .comment s => simp [cleanAttributesNode]
/-- `_clean_attributes` is idempotent on a node list. -/
theorem cleanAttributes_idem_list (l : List Node) :
    cleanAttributesList (cleanAttributesList l) = cleanAttributesList l := by
  match l with
  | [] => simp [cleanAttributesList]
  | n :: r =>
      have hn := cleanAttributes_idem_node n
      have hr := cleanAttributes_idem_list r
      simp [cleanAttributesList, hn, hr]
end

mutual
/-- `_strip_comments` is idempotent on a node. -/
theorem stripComments_idem_node (n : Node) :
    stripCommentsNode (stripCommentsNode n) = stripCommentsNode n := by
  match n with
  | .elem t a cs =>
      have hl := stripComments_idem_list cs
      simp [stripCommentsNode, hl]
  | .text s => simp [stripCommentsNode]
  | .comment s => simp [stripCommentsNode]
/-- `_strip_comments` is idempotent on a node list. -/
theorem stripComments_idem_list (l : List Node) :
    stripCommentsList (stripCommentsList l) = stripCommentsList l := by
  match l with
  | [] => simp [stripCommentsList]
  | n :: r =>
      match n with
      | .comment s => simpa [stripCommentsList] using stripComments_idem_list r
      | .elem t a cs =>
          have hn := stripComments_idem_node (.elem t a cs)
          have hr := stripComments_idem_list r
          simp only [stripCommentsList, stripCommentsNode] at hn ⊢
          simp [hn, hr]
      | .text s =>
          have hr := stripComments_idem_list r
          simp [stripCommentsList, stripCommentsNode, hr]
end

mutual
/-- Attribute cleaning and comment stripping commute on a node. -/
theorem cleanAttributes_stripComments_node (n : Node) :
    cleanAttributesNode (stripCommentsNode n)
      = stripCommentsNode (cleanAttributesNode n) := by
  match n with
  | .elem t a cs =>
      have hl := cleanAttributes_stripComments_list cs
      simp [cleanAttributesNode, stripCommentsNode, hl]
  | .text s => simp [cleanAttributesNode, stripCommentsNode]
  | .comment s => simp [cleanAttributesNode, stripCommentsNode]
/-- Attribute cleaning and comment stripping commute on a node list. -/
theorem cleanAttributes_stripComments_list (l : List Node) :
    cleanAttributesList (stripCommentsList l)
      = stripCommentsList (cleanAttributesList l) := by
  match l with
  | [] => simp [cleanAttributesList, stripCommentsList]
  | n :: r =>
      match n with
      | .comment s =>
          simpa [cleanAttributesList, stripCommentsList, cleanAttributesNode]
            using cleanAttributes_stripComments_list r
      | .elem t a cs =>
          have hn := cleanAttributes_stripComments_node (.elem t a cs)
          have hr := cleanAttributes_stripComments_list r
          simp only [cleanAttributesNode, stripCommentsNode,
            stripCommentsList, cleanAttributesList] at hn ⊢
          simp [hn, hr]
      | .text s =>
          have hr := cleanAttributes_stripComments_list r
          simp [cleanAttributesList, stripCommentsList, cleanAttributesNode,
            stripCommentsNode, hr]
end

/-- Every document produced by the cleaning pipeline is free of strippable
elements. -/
theorem cleanDoc_noStrippable (d : List Node) :
    noStrippableList (cleanDoc d) = true :=
  stripComments_noStrippable_list _
    (cleanAttributes_noStrippable_list _ (stripTags_noStrippable_list d))

/-- The tree-level cleaning pipeline is idempotent. -/
theorem cleanDoc_idem (d : List Node) : cleanDoc (cleanDoc d) = cleanDoc d := by
  have h1 : stripTagsList (cleanDoc d) = cleanDoc d :=
    stripTags_id_list _ (cleanDoc_noStrippable d)
  unfold cleanDoc at h1 ⊢
  rw [h1]
  rw [cleanAttributes_stripComments_list, stripComments_idem_list,
    cleanAttributes_idem_list]

/-! ## JSON-LD script preservation -/

mutual
/-- Visible text of a node: concatenation of all descendant text nodes
(`Tag.get_text()`); comments contribute nothing. -/
def getTextNode : Node → Str
  | .elem _ _ cs => getTextList cs
  | .text s => s
  | .comment _ => []
/-- Visible text of a node list. -/
def getTextList : List Node → Str
  | [] => []
  | n :: r => getTextNode n ++ getTextList r
end

mutual
/-- `type` attributes of all script elements of a subtree, in document order. -/
def scriptTypesNode : Node → List (Option Str)
  | .elem t a cs =>
      (if t = "script".data then [attrGet a "type".data] else [])
        ++ scriptTypesList cs
  | .text _ => []
  | .comment _ => []
/-- `type` attributes of all script elements of a node list. -/
def scriptTypesList : List Node → List (Option Str)
  | [] => []
  | n :: r => scriptTypesNode n ++ scriptTypesList r
end

mutual
/-- Bodies (visible text) of all JSON-LD-exempt script elements of a subtree,
in document order. -/
def ldTextsNode : Node → List Str
  | .elem t a cs =>
      (if isLdJsonScript t a then [getTextList cs] else []) ++ ldTextsList cs
  | .text _ => []
  | .comment _ => []
/-- Bodies of all JSON-LD-exempt script elements of a node list. -/
def ldTextsList : List Node → List Str
  | [] => []
  | n :: r => ldTextsNode n ++ ldTextsList r
end

mutual
/-- Bodies of the JSON-LD-exempt scripts of a subtree that are not nested
inside a strippable element; each body is taken after `_strip_tags` has run
below the script (for scripts whose children are plain text — every script a
real HTML parser produces — this is the verbatim body). -/
def ldTextsSafeNode : Node → List Str
  | .elem t a cs =>
      if strippable t a then []
      else
        (if isLdJsonScript t a then [getTextList (stripTagsList cs)] else [])
          ++ ldTextsSafeList cs
  | .text _ => []
  | .comment _ => []
/-- Safe JSON-LD bodies of a node list. -/
def ldTextsSafeList : List Node → List Str
  | [] => []
  | n :: r => ldTextsSafeNode n ++ ldTextsSafeList r
end

mutual
/-- Attribute cleaning does not change visible text. -/
theorem getText_cleanAttributes_node (n : Node) :
    getTextNode (cleanAttributesNode n) = getTextNode n := by
  match n with
  | .elem t a cs =>
      have hl := getText_cleanAttributes_list cs
      simp [cleanAttributesNode, getTextNode, hl]
  | .text s => simp [cleanAttributesNode]
  | .comment s => simp [cleanAttributesNode]
/-- Attribute cleaning does not change visible text. -/
theorem getText_cleanAttributes_list (l : List Node) :
    getTextList (cleanAttributesList l) = getTextList l := by
  match l with
  | [] => simp [cleanAttributesList]
  | n :: r =>
      have hn := getText_cleanAttributes_node n
      have hr := getText_cleanAttributes_list r
      simp [cleanAttributesList, getTextList, hn, hr]
end

mutual
/-- Comment stripping does not change visible text. -/
theorem getText_stripComments_node (n : Node) :
    getTextNode (stripCommentsNode n) = getTextNode n := by
  match n with
  | .elem t a cs =>
      have hl := getText_stripComments_list cs
      simp [stripCommentsNode, getTextNode, hl]
  | .text s => simp [stripCommentsNode]
  | .comment s => simp [stripCommentsNode]
/-- Comment stripping does not change visible text. -/
theorem getText_stripComments_list (l : List Node) :
    getTextList (stripCommentsList l) = getTextList l := by
  match l with
  | [] => simp [stripCommentsList]
  | n :: r =>
      match n with
      | .comment s =>
          simpa [stripCommentsList, getTextList, getTextNode]
            using getText_stripComments_list r
      | .elem t a cs =>
          have hn := getText_stripComments_node (.elem t a cs)
          have hr := getText_stripComments_list r
          simp only [stripCommentsList, getTextList]
          rw [hn, hr]
      | .text s =>
          have hr := getText_stripComments_list r
          simp [stripCommentsList, getTextList, stripCommentsNode, hr]
end

mutual
/-- `_strip_tags` keeps exactly the safely-placed JSON-LD script bodies. -/
theorem ldTexts_stripTags_node (n : Node) :
    (stripTagsNode n).elim [] ldTextsNode = ldTextsSafeNode n := by
  match n with
  | .elem t a cs =>
      rcases hs : strippable t a with _ | _
      · have hl := ldTexts_stripTags_list cs
        simp [stripTagsNode, hs, ldTextsNode, ldTextsSafeNode, hl]
      · simp [stripTagsNode, hs, ldTextsSafeNode]
  | .text s => simp [stripTagsNode, ldTextsNode, ldTextsSafeNode]
  | .comment s => simp [stripTagsNode, ldTextsNode, ldTextsSafeNode]
/-- `_strip_tags` keeps exactly the safely-placed JSON-LD script bodies. -/
theorem ldTexts_stripTags_list (l : List Node) :
    ldTextsList (stripTagsList l) = ldTextsSafeList l := by
  match l with
  | [] => simp [stripTagsList, ldTextsList, ldTextsSafeList]
  | n :: r =>
      have hn := ldTexts_stripTags_node n
      have hr := ldTexts_stripTags_list r
      rcases hh : stripTagsNode n with _ | n'
      · rw [hh] at hn
        simp only [Option.elim] at hn
        simp [stripTagsList, hh, ldTextsSafeList, ← hn, hr]
      · rw [hh] at hn
        simp only [Option.elim] at hn
        simp [stripTagsList, hh, ldTextsList, ldTextsSafeList, hn, hr]
end

mutual
/-- Attribute cleaning preserves JSON-LD script bodies. -/
theorem ldTexts_cleanAttributes_node (n : Node) :
    ldTextsNode (cleanAttributesNode n) = ldTextsNode n := by
  match n with
  | .elem t a cs =>
      have hl := ldTexts_cleanAttributes_list cs
      have hld : isLdJsonScript t (a.filter keepAttr) = isLdJsonScript t a := by
        unfold isLdJsonScript
        rw [attrGet_filter_type]
      simp [cleanAttributesNode, ldTextsNode, hl, hld,
        getText_cleanAttributes_list cs]
  | .text s => simp [cleanAttributesNode]
  | .comment s => simp [cleanAttributesNode]
/-- Attribute cleaning preserves JSON-LD script bodies. -/
theorem ldTexts_cleanAttributes_list (l : List Node) :
    ldTextsList (cleanAttributesList l) = ldTextsList l := by
  match l with
  | [] => simp [cleanAttributesList]
  | n :: r =>
      have hn := ldTexts_cleanAttributes_node n
      have hr := ldTexts_cleanAttributes_list r
      simp [cleanAttributesList, ldTextsList, hn, hr]
end

mutual
/-- Comment stripping preserves JSON-LD script bodies. -/
theorem ldTexts_stripComments_node (n : Node) :
    ldTextsNode (stripCommentsNode n) = ldTextsNode n := by
  match n with
  | .elem t a cs =>
      have hl := ldTexts_stripComments_list cs
      simp [stripCommentsNode, ldTextsNode, hl, getText_stripComments_list cs]
  | .text s => simp [stripCommentsNode]
  | .comment s => simp [stripCommentsNode]
/-- Comment stripping preserves JSON-LD script bodies. -/
theorem ldTexts_stripComments_list (l : List Node) :
    ldTextsList (stripCommentsList l) = ldTextsList l := by
  match l with
  | [] => simp [stripCommentsList]
  | n :: r =>
      match n with
      | .comment s =>
          simpa [stripCommentsList, ldTextsList, ldTextsNode]
            using ldTexts_stripComments_list r
      | .elem t a cs =>
          have hn := ldTexts_stripComments_node (.elem t a cs)
          have hr := ldTexts_stripComments_list r
          simp only [stripCommentsList, ldTextsList]
          rw [hn, hr]
      | .text s =>
          have hr := ldTexts_stripComments_list r
          simp [stripCommentsList, ldTextsList, stripCommentsNode, hr]
end

/-- The cleaned document keeps exactly the safely-placed JSON-LD bodies. -/
theorem ldTexts_cleanDoc (d : List Node) :
    ldTextsList (cleanDoc d) = ldTextsSafeList d := by
  unfold cleanDoc
  rw [ldTexts_stripComments_list, ldTexts_cleanAttributes_list,
    ldTexts_stripTags_list]

/-! ## Claim C3 — canonicalization is idempotent -/

/-- C3: for every HTML string `x`, canonicalizing the serialized result of
canonicalizing `x` yields the same normalized document as canonicalizing `x`
once: `build_clean_soup(str(build_clean_soup(x))) = build_clean_soup(x)`.
The third-party parser/serializer pair is external; the hypothesis is its
round-trip contract at the one document involved (re-parsing the serialized
cleaned document recovers that document). -/
theorem c3_canonicalize_idempotent (parse : Str → List Node)
    (render : List Node → Str) (x : Str)
    (hround : parse (clean_html parse render x) = build_clean_soup parse x) :
    build_clean_soup parse (clean_html parse render x)
      = build_clean_soup parse x := by
  unfold build_clean_soup at *
  rw [hround]
  exact cleanDoc_idem (parse x)

/-- A parse function for the C3 witness: every input parses to a fixed
one-paragraph document. -/
def c3Parse : Str → List Node :=
  fun _ => [.elem "p".data [] [.text "hi".data]]

/-- A render function for the C3 witness. -/
def c3Render : List Node → Str := fun _ => []

/-- Witness for C3 at a concrete parser/serializer pair and input. -/
theorem c3_canonicalize_idempotent_witness :
    build_clean_soup c3Parse (clean_html c3Parse c3Render [])
      = build_clean_soup c3Parse [] :=
  c3_canonicalize_idempotent c3Parse c3Render [] (by
    simp only [c3Parse, clean_html, build_clean_soup, cleanDoc, stripTagsList,
      stripTagsNode, cleanAttributesList, cleanAttributesNode,
      stripCommentsList, stripCommentsNode]
    norm_num)

/-! ## Claim C4 — stripped elements and the JSON-LD exemption -/

/-- A document holding a script whose `type` is `"APPLICATION/LD+JSON"` (not
exactly `"application/ld+json"`) and a script whose `type` is exactly
`"application/ld+json"` nested inside an `svg` element. -/
def c4Input : List Node :=
  [.elem "body".data []
    [.elem "script".data [("type".data, "APPLICATION/LD+JSON".data)]
       [.text "x".data],
     .elem "svg".data []
       [.elem "script".data [("type".data, "application/ld+json".data)]
          [.text "y".data]]]]

/-- C4 as stated is false: canonicalizing `c4Input` yields an output whose
only script element has `type = "APPLICATION/LD+JSON"` — so the output does
contain a script whose `type` is not exactly `"application/ld+json"`, and the
input's script whose `type` is exactly `"application/ld+json"` (removed with
its enclosing `svg`) is not preserved. -/
theorem c4_ldjson_counterexample :
    scriptTypesList (cleanDoc c4Input) = [some "APPLICATION/LD+JSON".data]
    ∧ scriptTypesList c4Input
        = [some "APPLICATION/LD+JSON".data, some "application/ld+json".data]
    ∧ "APPLICATION/LD+JSON".data ≠ "application/ld+json".data := by
  refine ⟨?_, ?_, by decide⟩
  · simp only [c4Input, cleanDoc, stripTagsList, stripTagsNode,
      cleanAttributesList, cleanAttributesNode, stripCommentsList,
      stripCommentsNode, scriptTypesList, scriptTypesNode]
    norm_num
    decide
  · simp only [c4Input, scriptTypesList, scriptTypesNode]
    norm_num
    decide

/-- C4 amended: for every HTML input, the canonicalized output contains no
script, style, noscript, iframe, canvas, svg, object, or embed element,
except script elements whose `type` attribute lowercases to
`"application/ld+json"` (the comparison is case-insensitive, not exact); and
the JSON-LD scripts that survive are exactly those not nested inside a
removed element, with their bodies intact
(`noStrippableList` states precisely the tag/exemption condition on every
element of the output). -/
theorem c4_strip_tags_amended (parse : Str → List Node) (x : Str) :
    noStrippableList (build_clean_soup parse x) = true
    ∧ ldTextsList (build_clean_soup parse x) = ldTextsSafeList (parse x) :=
  ⟨cleanDoc_noStrippable (parse x), ldTexts_cleanDoc (parse x)⟩

/-! ## Claim C10 — the two cleaning entry points agree -/

/-- C10: the strict cleaning function used by the site crawl and the minimal
cleaning function used by the single-page HTML endpoint are extensionally
equal; both are one pass of `build_clean_soup` followed by serialization. -/
theorem c10_clean_html_eq_minimal (parse : Str → List Node)
    (render : List Node → Str) (x : Str) :
    clean_html parse render x = clean_html_minimal parse render x := rfl

/-! ## Claim C5 — the shared truncation helper -/

/-- `app/config.py: settings.max_title_chars`. -/
def settings_max_title_chars : Nat := 512

/-- `app/config.py: settings.max_snippet_chars`. -/
def settings_max_snippet_chars : Nat := 1024

/-- `app/config.py: settings.max_pages_per_query`. -/
def settings_max_pages_per_query : Nat := 5

/-- `app/parsing/google_serp_parser.py: GoogleSerpParser._truncate`. -/
def googleTruncate (text : Option Str) (limit : Nat) : Str × Bool :=
  match text with
  | none => ([], false)
  | some t => if t.length ≤ limit then (t, false) else (t.take limit, true)

/-- `app/parsing/yandex_serp_parser.py: YandexSerpParser._truncate`. -/
def yandexTruncate (text : Str) (max_len : Nat) : Str × Bool :=
  if max_len < text.length then (text.take max_len, true) else (text, false)

/-- C5: for every text string and character limit L, both truncation helpers
return the text unchanged with `truncated=false` when its length is at most
L, and exactly the first L characters (length exactly L) with
`truncated=true` when its length exceeds L — a hard character cut. -/
theorem c5_truncate_policy (t : Str) (L : Nat) :
    (t.length ≤ L →
       googleTruncate (some t) L = (t, false) ∧ yandexTruncate t L = (t, false))
    ∧ (L < t.length →
       googleTruncate (some t) L = (t.take L, true)
       ∧ yandexTruncate t L = (t.take L, true)
       ∧ (t.take L).length = L) := by
  constructor
  · intro h
    constructor
    · simp [googleTruncate, h]
    · simp [yandexTruncate, Nat.not_lt.mpr h]
  · intro h
    refine ⟨?_, ?_, ?_⟩
    · simp [googleTruncate, Nat.not_le.mpr h]
    · simp [yandexTruncate, h]
    · simp [List.length_take, Nat.min_eq_left (Nat.le_of_lt h)]

/-- Witness for C5: a 6-character text with limit 3 (cut) and a 2-character
text with limit 3 (unchanged). -/
theorem c5_truncate_policy_witness :
    googleTruncate (some "abcdef".data) 3 = ("abc".data, true)
    ∧ yandexTruncate "abcdef".data 3 = ("abc".data, true)
    ∧ ("abc".data : Str).length = 3
    ∧ googleTruncate (some "ab".data) 3 = ("ab".data, false)
    ∧ yandexTruncate "ab".data 3 = ("ab".data, false) := by
  have h1 := (c5_truncate_policy "abcdef".data 3).2 (by decide)
  have h2 := (c5_truncate_policy "ab".data 3).1 (by decide)
  refine ⟨?_, ?_, by decide, h2.1, h2.2⟩
  · rw [h1.1]; decide
  · rw [h1.2.1]; decide

/-! ## Claim C6 — content-block extraction -/

/-- A block record built by
`app/parsing/content_parser.py: extract_content_blocks`. -/
structure ContentBlock where
  tag : Str
  classes : List Str
  text_preview : Str
  heading : Option Str
  image_count : Nat
  link_count : Nat
  button_count : Nat
  dom_path : Str
deriving DecidableEq

/-- Multi-valued `class` attribute as bs4 exposes it:
`el.get("class", [])`, the attribute value split on whitespace. -/
def classesOf (attrs : List (Str × Str)) : List Str :=
  match attrGet attrs "class".data with
  | none => []
  | some v => splitWs v

mutual
/-- First descendant element with the given tag (`Tag.find(name)`),
document (pre-)order. -/
def findTagList (tagName : Str) : List Node → Option Node
  | [] => none
  | .elem t a cs :: r =>
      if t = tagName then some (.elem t a cs)
      else
        match findTagList tagName cs with
        | some h => some h
        | none => findTagList tagName r
  | .text _ :: r => findTagList tagName r
  | .comment _ :: r => findTagList tagName r
end

mutual
/-- Number of descendant elements with the given tag
(`len(el.find_all(name))`). -/
def countTagList (tagName : Str) : List Node → Nat
  | [] => 0
  | .elem t _ cs :: r =>
      (if t = tagName then 1 else 0)
        + countTagList tagName cs + countTagList tagName r
  | .text _ :: r => countTagList tagName r
  | .comment _ :: r => countTagList tagName r
end

/-- One level of `content_parser.py: _get_first_heading`: the first
`tagName` descendant, if it exists and its cleaned text is non-empty. -/
def headingAtLevel (cs : List Node) (tagName : Str) : Option Str :=
  match findTagList tagName cs with
  | none => none
  | some h =>
      let t := clean_text (getTextNode h)
      if t = [] then none else some t

/-- `content_parser.py: _get_first_heading` — h1, then h2, then h3; a level
whose first match has empty text falls through to the next level. -/
def get_first_heading (cs : List Node) : Option Str :=
  match headingAtLevel cs "h1".data with
  | some t => some t
  | none =>
      match headingAtLevel cs "h2".data with
      | some t => some t
      | none => headingAtLevel cs "h3".data

/-- The upward walk of `content_parser.py: _build_dom_path`: collect tag
names from the element upward, stopping after `body` (inclusive) or at the
document root. -/
def upToBody : List Str → List Str
  | [] => []
  | x :: r => if x = "body".data then [x] else x :: upToBody r

/-- `content_parser.py: _build_dom_path` for an element with tag `tag` whose
ancestor tags (innermost first) under the document root are `anc`. -/
def build_dom_path (anc : List Str) (tag : Str) : Str :=
  joinSep ">".data (upToBody (tag :: anc)).reverse

/-- A candidate container found by
`soup.find_all(["section", "article", "div"])`, together with its ancestor
tag names (innermost first). -/
structure Cand where
  anc : List Str
  tag : Str
  attrs : List (Str × Str)
  children : List Node

mutual
/-- Candidates below a node, document (pre-)order. -/
def candNode (anc : List Str) : Node → List Cand
  | .elem t a cs =>
      (if t = "section".data ∨ t = "article".data ∨ t = "div".data
       then [⟨anc, t, a, cs⟩] else [])
        ++ candList (t :: anc) cs
  | .text _ => []
  | .comment _ => []
/-- Candidates of a node list, document (pre-)order. -/
def candList (anc : List Str) : List Node → List Cand
  | [] => []
  | n :: r => candNode anc n ++ candList anc r
end

/-- `classes_str = " ".join(classes_list).lower()` holding `"cookie"`. -/
def cookieClass (attrs : List (Str × Str)) : Bool :=
  decide ("cookie".data <:+: strLower (joinSep [' '] (classesOf attrs)))

/-- `_clean_text(el.get_text())` for a candidate container. -/
def blockText (c : Cand) : Str := clean_text (getTextList c.children)

/-- The two `continue` filters of `extract_content_blocks`: a class list
holding `"cookie"`, or empty visible text. -/
def skipBlock (c : Cand) : Bool := cookieClass c.attrs || blockText c = []

/-- The record `extract_content_blocks` appends for a retained candidate. -/
def mkBlock (c : Cand) : ContentBlock where
  tag := c.tag
  classes := classesOf c.attrs
  text_preview := (blockText c).take 200
  heading := get_first_heading c.children
  image_count := countTagList "img".data c.children
  link_count := countTagList "a".data c.children
  button_count := countTagList "button".data c.children
  dom_path := build_dom_path c.anc c.tag

/-- The candidate loop of `extract_content_blocks`, with the append-then-break
hard cap at 100 retained blocks. -/
def blocksGo : List Cand → List ContentBlock → List ContentBlock
  | [], acc => acc
  | c :: rest, acc =>
      if skipBlock c then blocksGo rest acc
      else
        let acc' := acc ++ [mkBlock c]
        if 100 ≤ acc'.length then acc' else blocksGo rest acc'

/-- `app/parsing/content_parser.py: extract_content_blocks`. -/
def extract_content_blocks (d : List Node) : List ContentBlock :=
  blocksGo (candList [] d) []

/-- The append-then-break loop returns the first `100 - acc.length` qualifying
blocks, appended to the accumulator. -/
theorem blocksGo_eq (cs : List Cand) (acc : List ContentBlock)
    (h : acc.length < 100) :
    blocksGo cs acc
      = acc ++ ((cs.filter (fun c => !skipBlock c)).map mkBlock).take
          (100 - acc.length) := by
  induction cs generalizing acc with
  | nil => simp [blocksGo]
  | cons c rest ih =>
      rcases hs : skipBlock c with _ | _
      · by_cases hlen : 100 ≤ acc.length + 1
        · have h99 : acc.length = 99 := by omega
          have h1 : 100 - acc.length = 1 := by omega
          simp [blocksGo, hs, hlen, List.filter_cons, h1]
        · have h' : (acc ++ [mkBlock c]).length < 100 := by
            simp only [List.length_append, List.length_cons, List.length_nil]
            omega
          have hstep : 100 - acc.length = (100 - (acc.length + 1)) + 1 := by
            omega
          rw [blocksGo]
          simp only [hs, Bool.false_eq_true, if_false,
            List.length_append, List.length_cons, List.length_nil,
            Nat.add_zero, hlen, if_false]
          rw [ih _ h']
          simp [List.filter_cons, hs, hstep, List.take_succ_cons]
      · have := ih acc h
        simp [blocksGo, hs, List.filter_cons, this]

/-- C6: content-block extraction returns exactly the first 100 qualifying
`section`/`article`/`div` containers in document order; in particular at
most 100 blocks, none whose class list holds the substring `"cookie"`
(case-insensitively) and none whose visible text is empty. -/
theorem c6_content_blocks (d : List Node) :
    extract_content_blocks d
      = (((candList [] d).filter (fun c => !skipBlock c)).map mkBlock).take 100
    ∧ (extract_content_blocks d).length ≤ 100
    ∧ ∀ b ∈ extract_content_blocks d,
        ¬("cookie".data <:+: strLower (joinSep [' '] b.classes))
        ∧ b.text_preview ≠ [] := by
  have heq : extract_content_blocks d
      = (((candList [] d).filter (fun c => !skipBlock c)).map mkBlock).take
          100 := by
    unfold extract_content_blocks
    simpa using blocksGo_eq (candList [] d) [] (by simp)
  refine ⟨heq, ?_, ?_⟩
  · rw [heq]
    exact (List.length_take_le _ _)
  · intro b hb
    rw [heq] at hb
    have hb' := List.take_subset _ _ hb
    obtain ⟨c, hcmem, hcb⟩ := List.mem_map.mp hb'
    have hcf := (List.mem_filter.mp hcmem).2
    simp only [Bool.not_eq_true', skipBlock, Bool.or_eq_false_iff] at hcf
    obtain ⟨hcookie, htext⟩ := hcf
    subst hcb
    constructor
    · intro hcontra
      rw [cookieClass, decide_eq_false_iff_not] at hcookie
      exact hcookie (by simpa [mkBlock] using hcontra)
    · simp only [mkBlock, ne_eq, List.take_eq_nil_iff]
      rintro (h200 | hnil)
      · omega
      · rw [decide_eq_false_iff_not] at htext
        exact htext (by simpa using hnil)

/-! ## SERP data model (`app/models/serp.py`) -/

/-- `app/models/serp.py: SerpResultBase`. -/
structure SerpResultBase where
  position : Nat
  url : Str
  domain : Str
  title : Str
  snippet : Option Str
  truncated : Bool
deriving DecidableEq

/-- `app/models/serp.py: SerpAdResult`. -/
structure SerpAdResult where
  position : Nat
  block : Str
  url : Str
  domain : Str
  title : Str
  truncated : Bool
deriving DecidableEq

/-- `app/models/serp.py: SerpPage`. -/
structure SerpPage where
  page : Nat
  organic_results : List SerpResultBase
  ads : List SerpAdResult
deriving DecidableEq

/-! ## A small CSS-selector engine

The parsers use `soup.select` / `Tag.select_one` with selectors of the shape
`tag.cls1.cls2`, `.cls`, `tag[attr]`, `tag[attr='v']` and one
descendant-combinator level (`A B`).  A compound selector is a `SimpleSel`;
a full selector is a chain of them, outermost first. -/

/-- One compound selector: optional tag, required class tokens, required
attributes (present, or present with a given value). -/
structure SimpleSel where
  tag : Option Str
  classes : List Str
  attrs : List (Str × Option Str)

/-- Does an element (tag + attributes) match a compound selector? -/
def matchesSimple (s : SimpleSel) (t : Str) (a : List (Str × Str)) : Bool :=
  (match s.tag with | none => true | some tg => t = tg)
  && s.classes.all (fun c => (classesOf a).contains c)
  && s.attrs.all (fun p =>
       match p.2 with
       | none => (attrGet a p.1).isSome
       | some v => attrGet a p.1 = some v)

/-- An element of the document together with its ancestor elements
(innermost first) and its children. -/
structure ElemCtx where
  anc : List (Str × List (Str × Str))
  tag : Str
  attrs : List (Str × Str)
  children : List Node

mutual
/-- All elements below a node in document (pre-)order, with contexts. -/
def elemsNode (anc : List (Str × List (Str × Str))) : Node → List ElemCtx
  | .elem t a cs => ⟨anc, t, a, cs⟩ :: elemsList ((t, a) :: anc) cs
  | .text _ => []
  | .comment _ => []
/-- All elements of a node list in document (pre-)order, with contexts. -/
def elemsList (anc : List (Str × List (Str × Str))) : List Node → List ElemCtx
  | [] => []
  | n :: r => elemsNode anc n ++ elemsList anc r
end

/-- Match the outer part of a selector chain (innermost first) against an
ancestor stack (innermost first), allowing gaps (descendant combinator). -/
def ancChain : List SimpleSel → List (Str × List (Str × Str)) → Bool
  | [], _ => true
  | _ :: _, [] => false
  | s :: more, (t, a) :: up =>
      (matchesSimple s t a && ancChain more up) || ancChain (s :: more) up

/-- Does an element with context match a selector chain (given reversed,
innermost first)? -/
def matchesChainRev (revChain : List SimpleSel) (e : ElemCtx) : Bool :=
  match revChain with
  | [] => false
  | s :: rest => matchesSimple s e.tag e.attrs && ancChain rest e.anc

/-- `soup.select(chain)` — all matching elements of the document. -/
def selectDoc (chain : List SimpleSel) (d : List Node) : List ElemCtx :=
  (elemsList [] d).filter (matchesChainRev chain.reverse)

/-- `el.select(chain)` — all matching descendants of an element. -/
def selectIn (chain : List SimpleSel) (e : ElemCtx) : List ElemCtx :=
  (elemsList ((e.tag, e.attrs) :: e.anc) e.children).filter
    (matchesChainRev chain.reverse)

/-- `el.select_one(chain)`. -/
def selectOneIn (chain : List SimpleSel) (e : ElemCtx) : Option ElemCtx :=
  (selectIn chain e).head?

/-- Python `str.strip()` (ASCII whitespace). -/
def pyStrip (s : Str) : Str :=
  (s.dropWhile pySpace).reverse.dropWhile pySpace |>.reverse

/-- In-order text-node fragments below an element (bs4 `Tag.strings`;
comments and other non-text strings excluded as in modern bs4). -/
def textFragments (e : ElemCtx) : List Str :=
  let rec go : List Node → List Str
    | [] => []
    | .text s :: r => s :: go r
    | .elem _ _ cs :: r => go cs ++ go r
    | .comment _ :: r => go r
  go e.children

/-- `Tag.get_text(sep, strip=True)` — strip each fragment, drop empties,
join with the separator. -/
def getTextSepStrip (sep : Str) (e : ElemCtx) : Str :=
  joinSep sep (((textFragments e).map pyStrip).filter (· ≠ []))

/-! ## URL-derived domains -/

/-- A valid `urllib.parse` scheme: first char alphabetic, the rest
alphanumeric or `+`/`-`/`.`. -/
def validScheme (s : Str) : Bool :=
  match s with
  | [] => false
  | c :: r => c.isAlpha && r.all (fun d => d.isAlphanum || d = '+' || d = '-' || d = '.')

/-- Drop a leading `scheme:` if present (the scheme-splitting step of
`urllib.parse.urlsplit`). -/
def afterScheme (u : Str) : Str :=
  let pre := u.takeWhile (· ≠ ':')
  let post := u.dropWhile (· ≠ ':')
  match post with
  | ':' :: rest => if validScheme pre then rest else u
  | _ => u

/-- `urllib.parse.urlparse(u).netloc` — the authority after `//`, up to the
first `/`, `?` or `#`; empty when the URL has no `//` part. -/
def urlparse_netloc (u : Str) : Str :=
  let rest := afterScheme u
  if "//".data.isPrefixOf rest then
    (rest.drop 2).takeWhile (fun c => c ≠ '/' && c ≠ '?' && c ≠ '#')
  else []

/-- `app/parsing/google_serp_parser.py: GoogleSerpParser._extract_domain` —
netloc of the URL, with a leading `www.` stripped. -/
def google_extract_domain (u : Str) : Str :=
  let host := urlparse_netloc u
  if "www.".data.isPrefixOf host then host.drop 4 else host

/-- `app/parsing/google_serp_parser.py: GoogleSerpParser._normalize_url` —
the identity (the URL is returned as-is). -/
def google_normalize_url (u : Str) : Str := u

/-- The Yandex parser's domain derivation
(`url.split("/")[2] if "://" in url else url`) — no `www.` stripping. -/
def yandexDomainOf (u : Str) : Str :=
  if "://".data <:+: u then (u.splitOn '/').getD 2 [] else u

/-! ## Google SERP extraction (`app/parsing/google_serp_parser.py`) -/

/-- Selector `div.g`. -/
def selDivG : List SimpleSel := [⟨some "div".data, ["g".data], []⟩]

/-- Selector `div.MjjYud`. -/
def selDivMjj : List SimpleSel := [⟨some "div".data, ["MjjYud".data], []⟩]

/-- Selector `div.NJo7tc.Z26q7c.uUuwM`. -/
def selDivNjo : List SimpleSel :=
  [⟨some "div".data, ["NJo7tc".data, "Z26q7c".data, "uUuwM".data], []⟩]

/-- Selector `div.yuRUbf a[href]`. -/
def selYuRUbfA : List SimpleSel :=
  [⟨some "div".data, ["yuRUbf".data], []⟩,
   ⟨some "a".data, [], [("href".data, none)]⟩]

/-- Selector `a[href]`. -/
def selAHref : List SimpleSel := [⟨some "a".data, [], [("href".data, none)]⟩]

/-- Selector `h3`. -/
def selH3 : List SimpleSel := [⟨some "h3".data, [], []⟩]

/-- Selector `.VwiC3b`. -/
def selVwiC3b : List SimpleSel := [⟨none, ["VwiC3b".data], []⟩]

/-- Selector `.aCOpRe`. -/
def selACOpRe : List SimpleSel := [⟨none, ["aCOpRe".data], []⟩]

/-- Selector `span[role='heading']`. -/
def selSpanHeading : List SimpleSel :=
  [⟨some "span".data, [], [("role".data, some "heading".data)]⟩]

/-- Selector `a h3`. -/
def selAH3 : List SimpleSel :=
  [⟨some "a".data, [], []⟩, ⟨some "h3".data, [], []⟩]

/-- Selector `div.uEierd`. -/
def selUEierd : List SimpleSel := [⟨some "div".data, ["uEierd".data], []⟩]

/-- Selector `div[data-text-ad]`. -/
def selDataTextAd : List SimpleSel :=
  [⟨some "div".data, [], [("data-text-ad".data, none)]⟩]

/-- The organic-container fallback chain:
`blocks = blocks_g or blocks_mjj or blocks_njo`. -/
def googleOrganicBlocks (d : List Node) : List ElemCtx :=
  let blocks_g := selectDoc selDivG d
  let blocks_mjj := selectDoc selDivMjj d
  let blocks_njo := selectDoc selDivNjo d
  if !blocks_g.isEmpty then blocks_g
  else if !blocks_mjj.isEmpty then blocks_mjj
  else blocks_njo

/-- One iteration of the `_parse_organic` loop body: `none` when the block is
skipped (`continue`), otherwise the appended result at the given position. -/
def googleOrganicResult (position : Nat) (b : ElemCtx) :
    Option SerpResultBase :=
  match (selectOneIn selYuRUbfA b).orElse (fun _ => selectOneIn selAHref b) with
  | none => none
  | some link =>
      let url := pyStrip ((attrGet link.attrs "href".data).getD [])
      if url = [] then none
      else
        let url := google_normalize_url url
        let domain := google_extract_domain url
        let title :=
          match (selectOneIn selH3 link).orElse (fun _ => selectOneIn selH3 b) with
          | some h => getTextSepStrip [' '] h
          | none => url
        let snippet :=
          match (selectOneIn selVwiC3b b).orElse
              (fun _ => selectOneIn selACOpRe b) with
          | some sn => some (getTextSepStrip [' '] sn)
          | none => none
        let tpair := googleTruncate (some title) settings_max_title_chars
        let spair :=
          match snippet with
          | some sn =>
              let p := googleTruncate (some sn) settings_max_snippet_chars
              (some p.1, p.2)
          | none => (none, false)
        some ⟨position, url, domain, tpair.1, spair.1, tpair.2 || spair.2⟩

/-- The `_parse_organic` loop with its 1-based position counter (incremented
only when a result is appended). -/
def googleParseOrganicGo : List ElemCtx → Nat → List SerpResultBase
  | [], _ => []
  | b :: rest, position =>
      match googleOrganicResult position b with
      | none => googleParseOrganicGo rest position
      | some r => r :: googleParseOrganicGo rest (position + 1)

/-- `GoogleSerpParser._parse_organic`. -/
def googleParseOrganic (d : List Node) : List SerpResultBase :=
  googleParseOrganicGo (googleOrganicBlocks d) 1

/-- Ad containers: `soup.select("div.uEierd") or soup.select("div[data-text-ad]")`. -/
def googleAdBlocks (d : List Node) : List ElemCtx :=
  let u := selectDoc selUEierd d
  if !u.isEmpty then u else selectDoc selDataTextAd d

/-- One iteration of the `_parse_ads` loop body. -/
def googleAdResult (position : Nat) (b : ElemCtx) : Option SerpAdResult :=
  match selectOneIn selAHref b with
  | none => none
  | some link =>
      let url := pyStrip ((attrGet link.attrs "href".data).getD [])
      if url = [] then none
      else
        let url := google_normalize_url url
        let domain := google_extract_domain url
        let title :=
          match (selectOneIn selSpanHeading b).orElse
              (fun _ => (selectOneIn selAH3 b).orElse
                (fun _ => selectOneIn selH3 b)) with
          | some h => getTextSepStrip [' '] h
          | none => url
        let tpair := googleTruncate (some title) settings_max_title_chars
        some ⟨position, "top".data, url, domain, tpair.1, tpair.2⟩

/-- The `_parse_ads` loop (placement tag fixed to `"top"`). -/
def googleParseAdsGo : List ElemCtx → Nat → List SerpAdResult
  | [], _ => []
  | b :: rest, position =>
      match googleAdResult position b with
      | none => googleParseAdsGo rest position
      | some r => r :: googleParseAdsGo rest (position + 1)

/-- `GoogleSerpParser._parse_ads`. -/
def googleParseAds (d : List Node) : List SerpAdResult :=
  googleParseAdsGo (googleAdBlocks d) 1

/-- `GoogleSerpParser.parse` on an already-parsed soup. -/
def googleParse (d : List Node) (page_number : Nat) : SerpPage :=
  ⟨page_number, googleParseOrganic d, googleParseAds d⟩

/-! ## Yandex SERP extraction (`app/parsing/yandex_serp_parser.py`) -/

/-- Selector `li.serp-item`. -/
def selLiSerpItem : List SimpleSel := [⟨some "li".data, ["serp-item".data], []⟩]

/-- Selector `a.Link`. -/
def selALink : List SimpleSel := [⟨some "a".data, ["Link".data], []⟩]

/-- Selector `h2`. -/
def selH2 : List SimpleSel := [⟨some "h2".data, [], []⟩]

/-- Selector `.text-container`. -/
def selTextContainer : List SimpleSel := [⟨none, ["text-container".data], []⟩]

/-- Selector `.organic .advertising`. -/
def selOrganicAdvertising : List SimpleSel :=
  [⟨none, ["organic".data], []⟩, ⟨none, ["advertising".data], []⟩]

/-- Selector `a`. -/
def selA : List SimpleSel := [⟨some "a".data, [], []⟩]

/-- Selector `.organic__url-text`. -/
def selOrganicUrlText : List SimpleSel :=
  [⟨none, ["organic__url-text".data], []⟩]

/-- One iteration of the Yandex `_parse_organic` loop body (positions are
filled in afterwards by `parse`, so they start at 0 here). -/
def yandexOrganicResult (b : ElemCtx) : Option SerpResultBase :=
  match selectOneIn selALink b with
  | none => none
  | some link =>
      match attrGet link.attrs "href".data with
      | none => none
      | some href =>
          if href = [] then none
          else
            let title :=
              match selectOneIn selH2 b with
              | some t => getTextSepStrip [] t
              | none => []
            let snippet :=
              match selectOneIn selTextContainer b with
              | some s => getTextSepStrip [' '] s
              | none => []
            let tpair := yandexTruncate title settings_max_title_chars
            let spair := yandexTruncate snippet settings_max_snippet_chars
            let url := href
            let domain := yandexDomainOf url
            some ⟨0, url, domain, tpair.1, some spair.1, tpair.2 || spair.2⟩

/-- The Yandex `_parse_organic` loop. -/
def yandexOrganicGo : List ElemCtx → List SerpResultBase
  | [] => []
  | b :: rest =>
      match yandexOrganicResult b with
      | none => yandexOrganicGo rest
      | some r => r :: yandexOrganicGo rest

/-- One iteration of the Yandex `_parse_ads` loop body. -/
def yandexAdResult (b : ElemCtx) : Option SerpAdResult :=
  match selectOneIn selA b with
  | none => none
  | some link =>
      match attrGet link.attrs "href".data with
      | none => none
      | some href =>
          if href = [] then none
          else
            let title :=
              match (selectOneIn selOrganicUrlText b).orElse
                  (fun _ => selectOneIn selA b) with
              | some t => getTextSepStrip [] t
              | none => []
            let tpair := yandexTruncate title settings_max_title_chars
            some ⟨0, "top".data, href, yandexDomainOf href, tpair.1, tpair.2⟩

/-- The Yandex `_parse_ads` loop. -/
def yandexAdsGo : List ElemCtx → List SerpAdResult
  | [] => []
  | b :: rest =>
      match yandexAdResult b with
      | none => yandexAdsGo rest
      | some r => r :: yandexAdsGo rest

/-- `YandexSerpParser.parse` on an already-parsed soup: run both loops, then
re-number positions from 1 in order of appearance. -/
def yandexParse (d : List Node) (page_number : Nat) : SerpPage :=
  let organic := yandexOrganicGo (selectDoc selLiSerpItem d)
  let ads := yandexAdsGo (selectDoc selOrganicAdvertising d)
  ⟨page_number,
   organic.enum.map (fun p => { p.2 with position := p.1 + 1 }),
   ads.enum.map (fun p => { p.2 with position := p.1 + 1 })⟩

/-! ## Claim C9 — domain derivation -/

/-- Every appended Google organic result computes `domain` from its own
`url` by `_extract_domain`. -/
theorem googleOrganicResult_domain (pos : Nat) (b : ElemCtx)
    (r : SerpResultBase) (h : googleOrganicResult pos b = some r) :
    r.domain = google_extract_domain r.url := by
  simp only [googleOrganicResult] at h
  split at h
  · exact absurd h (by simp)
  · split at h
    · exact absurd h (by simp)
    · obtain rfl := (Option.some_inj.mp h)
      rfl

/-- Every appended Google ad result computes `domain` from its own `url`. -/
theorem googleAdResult_domain (pos : Nat) (b : ElemCtx)
    (r : SerpAdResult) (h : googleAdResult pos b = some r) :
    r.domain = google_extract_domain r.url := by
  simp only [googleAdResult] at h
  split at h
  · exact absurd h (by simp)
  · split at h
    · exact absurd h (by simp)
    · obtain rfl := (Option.some_inj.mp h)
      rfl

/-- Every appended Yandex organic result computes `domain` from its own `url`
by the split-based derivation. -/
theorem yandexOrganicResult_domain (b : ElemCtx)
    (r : SerpResultBase) (h : yandexOrganicResult b = some r) :
    r.domain = yandexDomainOf r.url := by
  simp only [yandexOrganicResult] at h
  split at h
  · exact absurd h (by simp)
  · split at h
    · exact absurd h (by simp)
    · split at h
      · exact absurd h (by simp)
      · obtain rfl := (Option.some_inj.mp h)
        rfl

/-- Every appended Yandex ad result computes `domain` from its own `url`. -/
theorem yandexAdResult_domain (b : ElemCtx)
    (r : SerpAdResult) (h : yandexAdResult b = some r) :
    r.domain = yandexDomainOf r.url := by
  simp only [yandexAdResult] at h
  split at h
  · exact absurd h (by simp)
  · split at h
    · exact absurd h (by simp)
    · split at h
      · exact absurd h (by simp)
      · obtain rfl := (Option.some_inj.mp h)
        rfl

/-- List version of `googleOrganicResult_domain` over the loop. -/
theorem googleParseOrganicGo_domain (bs : List ElemCtx) (pos : Nat) :
    ∀ r ∈ googleParseOrganicGo bs pos,
      r.domain = google_extract_domain r.url := by
  induction bs generalizing pos with
  | nil => simp [googleParseOrganicGo]
  | cons b rest ih =>
      intro r hr
      rw [googleParseOrganicGo] at hr
      rcases hb : googleOrganicResult pos b with _ | r0
      · rw [hb] at hr
        exact ih pos r hr
      · rw [hb] at hr
        rcases List.mem_cons.mp hr with h | h
        · subst h
          exact googleOrganicResult_domain pos b r hb
        · exact ih (pos + 1) r h

/-- List version of `googleAdResult_domain` over the loop. -/
theorem googleParseAdsGo_domain (bs : List ElemCtx) (pos : Nat) :
    ∀ r ∈ googleParseAdsGo bs pos, r.domain = google_extract_domain r.url := by
  induction bs generalizing pos with
  | nil => simp [googleParseAdsGo]
  | cons b rest ih =>
      intro r hr
      rw [googleParseAdsGo] at hr
      rcases hb : googleAdResult pos b with _ | r0
      · rw [hb] at hr
        exact ih pos r hr
      · rw [hb] at hr
        rcases List.mem_cons.mp hr with h | h
        · subst h
          exact googleAdResult_domain pos b r hb
        · exact ih (pos + 1) r h

/-- List version of `yandexOrganicResult_domain` over the loop. -/
theorem yandexOrganicGo_domain (bs : List ElemCtx) :
    ∀ r ∈ yandexOrganicGo bs, r.domain = yandexDomainOf r.url := by
  induction bs with
  | nil => simp [yandexOrganicGo]
  | cons b rest ih =>
      intro r hr
      rw [yandexOrganicGo] at hr
      rcases hb : yandexOrganicResult b with _ | r0
      · rw [hb] at hr
        exact ih r hr
      · rw [hb] at hr
        rcases List.mem_cons.mp hr with h | h
        · subst h
          exact yandexOrganicResult_domain b r hb
        · exact ih r h

/-- List version of `yandexAdResult_domain` over the loop. -/
theorem yandexAdsGo_domain (bs : List ElemCtx) :
    ∀ r ∈ yandexAdsGo bs, r.domain = yandexDomainOf r.url := by
  induction bs with
  | nil => simp [yandexAdsGo]
  | cons b rest ih =>
      intro r hr
      rw [yandexAdsGo] at hr
      rcases hb : yandexAdResult b with _ | r0
      · rw [hb] at hr
        exact ih r hr
      · rw [hb] at hr
        rcases List.mem_cons.mp hr with h | h
        · subst h
          exact yandexAdResult_domain b r hb
        · exact ih r h

/-- A Yandex SERP soup with one organic container whose link's absolute URL
has a `www.` host. -/
def c9Soup : List Node :=
  [.elem "li".data [("class".data, "serp-item".data)]
    [.elem "a".data
       [("class".data, "Link".data),
        ("href".data, "https://www.example.com/a".data)]
       [.text "t".data],
     .elem "h2".data [] [.text "T".data],
     .elem "div".data [("class".data, "text-container".data)]
       [.text "s".data]]]

/-- C9 as stated is false for the Yandex extractor: the emitted result for an
absolute `https://www.example.com/a` link has domain `"www.example.com"` —
the leading `www.` is not stripped. -/
theorem c9_domain_counterexample :
    ((yandexParse c9Soup 1).organic_results.map (fun r => r.domain))
      = ["www.example.com".data]
    ∧ ((yandexParse c9Soup 1).organic_results.map (fun r => r.url))
      = ["https://www.example.com/a".data]
    ∧ "www.".data.isPrefixOf "www.example.com".data = true := by
  refine ⟨?_, ?_, by decide⟩ <;>
  · simp only [yandexParse, selectDoc, elemsList, elemsNode, textFragments,
      textFragments.go, c9Soup]
    decide

/-- `takeWhile` of a list all of whose elements satisfy the predicate,
followed by a failing element, is that list. -/
theorem takeWhile_append_stop {p : Char → Bool} (host : Str) (x : Char)
    (xs : Str) (hall : ∀ c ∈ host, p c = true) (hx : p x = false) :
    (host ++ x :: xs).takeWhile p = host := by
  induction host with
  | nil => simp [List.takeWhile_cons, hx]
  | cons c r ih =>
      have hc := hall c (List.mem_cons_self c r)
      simp only [List.cons_append, List.takeWhile_cons, hc, if_true]
      rw [ih (fun d hd => hall d (List.mem_cons_of_mem c hd))]

/-- For an absolute `https` URL whose host part holds none of `:`, `/`, `?`,
`#`, `_extract_domain` returns the bare host with a leading `www.`
stripped. -/
theorem google_extract_domain_https (host rest : Str)
    (hall : ∀ c ∈ host, c ≠ ':' ∧ c ≠ '/' ∧ c ≠ '?' ∧ c ≠ '#') :
    google_extract_domain ("https://".data ++ host ++ '/' :: rest)
      = if "www.".data.isPrefixOf host then host.drop 4 else host := by
  have hlit : "https://".data = ['h', 't', 't', 'p', 's', ':', '/', '/'] := rfl
  have hnet : urlparse_netloc ("https://".data ++ host ++ '/' :: rest)
      = host := by
    unfold urlparse_netloc afterScheme
    rw [hlit]
    simp only [List.cons_append, List.takeWhile_cons, List.dropWhile_cons]
    norm_num [validScheme, List.isPrefixOf, List.all_cons]
    exact takeWhile_append_stop host '/' rest
      (fun c hc => by
        obtain ⟨h1, h2, h3, h4⟩ := hall c hc
        simp [h2, h3, h4])
      (by decide)
  unfold google_extract_domain
  rw [hnet]

/-- A pair drawn from `enumFrom` has its second component in the list. -/
theorem snd_mem_of_mem_enumFrom {α : Type} :
    ∀ {l : List α} {n : Nat} {p : Nat × α}, p ∈ l.enumFrom n → p.2 ∈ l := by
  intro l
  induction l with
  | nil => simp
  | cons a r ih =>
      intro n p hp
      rw [List.enumFrom_cons] at hp
      rcases List.mem_cons.mp hp with h | h
      · subst h
        exact List.mem_cons_self a r
      · exact List.mem_cons_of_mem a (ih h)

/-- C9 amended: every Google result (organic or ad) carries
`domain = _extract_domain(url)`, which for an absolute URL is the bare host
with a leading `www.` stripped; every Yandex result (organic or ad) carries
`domain = url.split("/")[2]` — the raw host segment, with no `www.`
stripping. -/
theorem c9_domain_amended :
    (∀ d pn r, r ∈ (googleParse d pn).organic_results →
        r.domain = google_extract_domain r.url)
    ∧ (∀ d pn r, r ∈ (googleParse d pn).ads →
        r.domain = google_extract_domain r.url)
    ∧ (∀ d pn r, r ∈ (yandexParse d pn).organic_results →
        r.domain = yandexDomainOf r.url)
    ∧ (∀ d pn r, r ∈ (yandexParse d pn).ads →
        r.domain = yandexDomainOf r.url)
    ∧ (∀ host rest, (∀ c ∈ host, c ≠ ':' ∧ c ≠ '/' ∧ c ≠ '?' ∧ c ≠ '#') →
        google_extract_domain ("https://".data ++ host ++ '/' :: rest)
          = if "www.".data.isPrefixOf host then host.drop 4 else host) := by
  refine ⟨?_, ?_, ?_, ?_, ?_⟩
  · intro d pn r hr
    exact googleParseOrganicGo_domain (googleOrganicBlocks d) 1 r
      (by simpa [googleParse, googleParseOrganic] using hr)
  · intro d pn r hr
    exact googleParseAdsGo_domain (googleAdBlocks d) 1 r
      (by simpa [googleParse, googleParseAds] using hr)
  · intro d pn r hr
    simp only [yandexParse, List.mem_map] at hr
    obtain ⟨p, hp, rfl⟩ := hr
    have h2 : p.2 ∈ yandexOrganicGo (selectDoc selLiSerpItem d) :=
      snd_mem_of_mem_enumFrom hp
    exact yandexOrganicGo_domain _ p.2 h2
  · intro d pn r hr
    simp only [yandexParse, List.mem_map] at hr
    obtain ⟨p, hp, rfl⟩ := hr
    have h2 : p.2 ∈ yandexAdsGo (selectDoc selOrganicAdvertising d) :=
      snd_mem_of_mem_enumFrom hp
    exact yandexAdsGo_domain _ p.2 h2
  · intro host rest hall
    exact google_extract_domain_https host rest hall

/-- The organic result the Yandex extractor emits for `c9Soup`. -/
def c9WitnessResult : SerpResultBase :=
  ⟨1, "https://www.example.com/a".data, "www.example.com".data, "T".data,
   some "s".data, false⟩

/-- Witness for the amended C9 at a concrete soup and a concrete absolute
URL. -/
theorem c9_domain_amended_witness :
    c9WitnessResult.domain = yandexDomainOf c9WitnessResult.url
    ∧ google_extract_domain
        ("https://".data ++ "www.example.com".data ++ '/' :: "a".data)
      = "example.com".data := by
  constructor
  · have hlist : (yandexParse c9Soup 1).organic_results = [c9WitnessResult] := by
      simp [yandexParse, selectDoc, elemsList, elemsNode, textFragments,
        textFragments.go, c9Soup, c9WitnessResult, yandexOrganicGo,
        yandexOrganicResult, selectOneIn, selectIn, matchesChainRev,
        matchesSimple, ancChain, classesOf, attrGet, splitWs, getTextSepStrip,
        pyStrip, joinSep, yandexTruncate, yandexDomainOf,
        settings_max_title_chars, settings_max_snippet_chars, selLiSerpItem,
        selALink, selH2, selTextContainer, List.filter]
      decide
    exact c9_domain_amended.2.2.1 c9Soup 1 c9WitnessResult
      (by rw [hlist]; exact List.mem_singleton_self c9WitnessResult)
  · have h5 := c9_domain_amended.2.2.2.2 "www.example.com".data "a".data
      (by decide)
    rw [h5]
    decide

/-! ## Error taxonomy (`app/errors.py`) -/

/-- `app/errors.py: ErrorCode`. -/
inductive ErrorCode where
  | unauthorized
  | bad_request
  | source_unavailable
  | blocked_or_captcha
  | timeout
  | internal_error
deriving DecidableEq

/-- The string value of an `ErrorCode` member (`e.error_code.value`). -/
def ErrorCode.val : ErrorCode → Str
  | .unauthorized => "unauthorized".data
  | .bad_request => "bad_request".data
  | .source_unavailable => "source_unavailable".data
  | .blocked_or_captcha => "blocked_or_captcha".data
  | .timeout => "timeout".data
  | .internal_error => "internal_error".data

/-! ## SERP collection (`app/services/serp_service.py`)

The remote clients (`BrightDataClient.fetch_page_html`,
`YandexClient.fetch_serp_html`) are external collaborators; a `ScraperError`
raised by them is an `Except.error` holding its `error_code`.  The
`BeautifulSoup` call inside each parser is the external `bsParse`
parameter.  The debug write of the first fetched page (a filesystem side
effect) does not affect the returned value and is not modelled. -/

/-- `app/models/serp.py: SerpQueryRequest` (after boundary validation). -/
structure SerpQueryRequest where
  queries : List Str
  max_pages_per_query : Nat
  results_per_page : Nat
  locale : Option Str
  geo : Option Str
  region : Option Str

/-- `app/models/serp.py: SerpQueryResult`. -/
structure SerpQueryResult where
  query : Str
  requested_pages : Nat
  pages_scanned : Nat
  error_code : Option Str
  pages : List SerpPage
deriving DecidableEq

/-- `app/models/serp.py: SerpData` (`partial` is a Lean keyword, hence
`partialFlag`). -/
structure SerpData where
  engine : Str
  partialFlag : Bool
  queries : List SerpQueryResult
deriving DecidableEq

/-- Hexadecimal digit (uppercase), for percent-encoding. -/
def hexDigit (n : Nat) : Char :=
  if n < 10 then Char.ofNat ('0'.toNat + n) else Char.ofNat ('A'.toNat + (n - 10))

/-- UTF-8 bytes of a code point. -/
def utf8Bytes (n : Nat) : List Nat :=
  if n < 0x80 then [n]
  else if n < 0x800 then [0xC0 + n / 64, 0x80 + n % 64]
  else if n < 0x10000 then
    [0xE0 + n / 4096, 0x80 + n / 64 % 64, 0x80 + n % 64]
  else
    [0xF0 + n / 262144, 0x80 + n / 4096 % 64, 0x80 + n / 64 % 64,
     0x80 + n % 64]

/-- `urllib.parse.quote_plus` on one character: space becomes `+`, safe
characters pass through, the rest are percent-encoded per UTF-8 byte. -/
def quotePlusChar (c : Char) : Str :=
  if c = ' ' then ['+']
  else if c.isAlphanum || c = '_' || c = '.' || c = '-' || c = '~' then [c]
  else (utf8Bytes c.toNat).flatMap
    (fun b => ['%', hexDigit (b / 16), hexDigit (b % 16)])

/-- `urllib.parse.quote_plus`. -/
def quote_plus (s : Str) : Str := s.flatMap quotePlusChar

/-- Decimal rendering of a natural number. -/
def natToStr (n : Nat) : Str := (toString n).data

/-- `SerpService._build_google_search_url`: `page=1 → start=0`,
`hl` from the locale's language part, `gl` from `geo`. -/
def build_google_search_url (query : Str) (page : Nat) (locale : Option Str)
    (geo : Option Str) : Str :=
  let start := (page - 1) * 10
  let hl := ((locale.getD "ru-RU".data).splitOn '-').headD []
  let gl := geo.getD "ru".data
  let q := quote_plus query
  "https://www.google.com/search?q=".data ++ q ++ "&hl=".data ++ hl
    ++ "&gl=".data ++ gl ++ "&start=".data ++ natToStr start

/-- The inner page loop of `fetch_google_serp` / `fetch_yandex_serp` over
given page numbers: append pages and count until the first `ScraperError`,
which stops the scan and records its code value. -/
def scanPages (step : Nat → Except ErrorCode SerpPage) :
    List Nat → List SerpPage × Nat × Option Str
  | [] => ([], 0, none)
  | p :: rest =>
      match step p with
      | .error e => ([], 0, some e.val)
      | .ok pg =>
          let t := scanPages step rest
          (pg :: t.1, t.2.1 + 1, t.2.2)

/-- One query's outcome: scan pages `1..max_pages` sequentially. -/
def serpQueryOutcome (step : Str → Nat → Except ErrorCode SerpPage)
    (max_pages : Nat) (q : Str) : SerpQueryResult :=
  let t := scanPages (step q) (List.range' 1 max_pages)
  ⟨q, max_pages, t.2.1, t.2.2, t.1⟩

/-- The query loop shared verbatim by `fetch_google_serp` and
`fetch_yandex_serp`: queries are processed independently, and `partial` is
set exactly when some query stopped early with an error. -/
def serpCollect (step : Str → Nat → Except ErrorCode SerpPage) (engine : Str)
    (queries : List Str) (max_pages : Nat) : SerpData :=
  let outcomes := queries.map (serpQueryOutcome step max_pages)
  ⟨engine, outcomes.any (fun o => o.error_code.isSome), outcomes⟩

/-- `SerpService.fetch_google_serp`, cache-miss path: the per-page step
fetches the built Google URL through the Bright Data client and parses the
HTML with `GoogleSerpParser.parse`. -/
def fetch_google_serp (fetchPageHtml : Str → Except ErrorCode Str)
    (bsParse : Str → List Node) (req : SerpQueryRequest) : SerpData :=
  let max_pages := min req.max_pages_per_query settings_max_pages_per_query
  serpCollect
    (fun q page_num =>
      (fetchPageHtml (build_google_search_url q page_num req.locale req.geo)).map
        (fun html => googleParse (bsParse html) page_num))
    "google".data req.queries max_pages

/-- `SerpService.fetch_yandex_serp`, cache-miss path. -/
def fetch_yandex_serp
    (fetchSerpHtml : Str → Nat → Str → Str → Except ErrorCode Str)
    (bsParse : Str → List Node) (req : SerpQueryRequest) : SerpData :=
  let max_pages := min req.max_pages_per_query settings_max_pages_per_query
  let region := req.region.getD "213".data
  serpCollect
    (fun q page_num =>
      (fetchSerpHtml q page_num (req.locale.getD "ru-RU".data) region).map
        (fun html => yandexParse (bsParse html) page_num))
    "yandex".data req.queries max_pages

/-- Scanning pages `s, s+1, …` with successes strictly before `n` and an
error at `n` (within range) yields exactly the pages before `n`, their
count, and the error's code value. -/
theorem scanPages_early (step : Nat → Except ErrorCode SerpPage)
    (pg : Nat → SerpPage) (e : ErrorCode) :
    ∀ (len s n : Nat), s ≤ n → n < s + len →
      (∀ k, s ≤ k → k < n → step k = .ok (pg k)) →
      step n = .error e →
      scanPages step (List.range' s len)
        = ((List.range' s (n - s)).map pg, n - s, some e.val) := by
  intro len
  induction len with
  | zero =>
      intro s n h1 h2
      omega
  | succ m ih =>
      intro s n h1 h2 hok herr
      rw [List.range'_succ]
      by_cases hs : s = n
      · subst hs
        have hz : s - s = 0 := by omega
        rw [scanPages, herr, hz]
        simp
      · have hlt : s < n := lt_of_le_of_ne h1 hs
        have hok_s : step s = .ok (pg s) := hok s le_rfl hlt
        have ht := ih (s + 1) n hlt (by omega)
          (fun k hk1 hk2 => hok k (by omega) hk2) herr
        rw [scanPages, hok_s, ht]
        have hstep : n - s = (n - (s + 1)) + 1 := by omega
        rw [hstep, List.range'_succ]
        simp

/-- C1: in every SERP collection (the query loop `serpCollect` shared by
`fetch_google_serp` and `fetch_yandex_serp`, whose bodies are recorded by
the last two conjuncts), pages are fetched sequentially from page 1; if the
step for query `i` succeeds strictly before page `n` and fails at page
`n ≤ max_pages` with error `e`, that query's outcome has
`pages_scanned = n - 1`, `pages` exactly the successfully scanned pages in
page order, `error_code` the failure's category, the collection's `partial`
flag is true, and every query's outcome (including all other queries,
returned complete) is a function of that query alone. -/
theorem c1_serp_query_early_stop
    (step : Str → Nat → Except ErrorCode SerpPage) (engine : Str)
    (queries : List Str) (max_pages : Nat)
    (i : Nat) (hi : i < queries.length)
    (n : Nat) (hn1 : 1 ≤ n) (hnm : n ≤ max_pages)
    (pg : Nat → SerpPage) (e : ErrorCode)
    (hok : ∀ k, 1 ≤ k → k < n → step (queries.get ⟨i, hi⟩) k = .ok (pg k))
    (herr : step (queries.get ⟨i, hi⟩) n = .error e) :
    (serpCollect step engine queries max_pages).queries
        = queries.map (serpQueryOutcome step max_pages)
    ∧ serpQueryOutcome step max_pages (queries.get ⟨i, hi⟩)
        = ⟨queries.get ⟨i, hi⟩, max_pages, n - 1, some e.val,
           (List.range' 1 (n - 1)).map pg⟩
    ∧ (serpCollect step engine queries max_pages).partialFlag = true
    ∧ (∀ (f : Str → Except ErrorCode Str) (bp : Str → List Node)
          (req : SerpQueryRequest),
        fetch_google_serp f bp req
          = serpCollect
              (fun q pn =>
                (f (build_google_search_url q pn req.locale req.geo)).map
                  (fun h => googleParse (bp h) pn))
              "google".data req.queries
              (min req.max_pages_per_query settings_max_pages_per_query))
    ∧ (∀ (f : Str → Nat → Str → Str → Except ErrorCode Str)
          (bp : Str → List Node) (req : SerpQueryRequest),
        fetch_yandex_serp f bp req
          = serpCollect
              (fun q pn =>
                (f q pn (req.locale.getD "ru-RU".data)
                    (req.region.getD "213".data)).map
                  (fun h => yandexParse (bp h) pn))
              "yandex".data req.queries
              (min req.max_pages_per_query settings_max_pages_per_query)) := by
  have hout := scanPages_early (step (queries.get ⟨i, hi⟩)) pg e max_pages 1 n
    hn1 (by omega) (fun k hk1 hk2 => hok k hk1 hk2) herr
  refine ⟨rfl, ?_, ?_, fun _ _ _ => rfl, fun _ _ _ => rfl⟩
  · unfold serpQueryOutcome
    rw [hout]
  · unfold serpCollect
    simp only [List.any_eq_true, List.mem_map]
    refine ⟨serpQueryOutcome step max_pages (queries.get ⟨i, hi⟩),
      ⟨queries.get ⟨i, hi⟩, List.get_mem queries i hi, rfl⟩, ?_⟩
    unfold serpQueryOutcome
    rw [hout]
    simp

/-- A simulated per-page step for the C1 witness: page 1 succeeds, later
pages time out. -/
def c1Step : Str → Nat → Except ErrorCode SerpPage :=
  fun _ k => if k ≤ 1 then .ok ⟨k, [], []⟩ else .error .timeout

/-- Witness for C1: a 3-page request whose gateway fails on page 2 yields
`pages_scanned = 1`, `pages = [page1]`, `error_code = timeout`, and the
collection is partial; the other query is unaffected. -/
theorem c1_serp_query_early_stop_witness :
    (serpCollect c1Step "google".data ["a".data, "b".data] 3).queries
        = ["a".data, "b".data].map (serpQueryOutcome c1Step 3)
    ∧ serpQueryOutcome c1Step 3 "a".data
        = ⟨"a".data, 3, 1, some ErrorCode.timeout.val,
           [(⟨1, [], []⟩ : SerpPage)]⟩
    ∧ (serpCollect c1Step "google".data ["a".data, "b".data] 3).partialFlag
        = true := by
  have h := c1_serp_query_early_stop c1Step "google".data
    ["a".data, "b".data] 3 0 (by decide) 2 (by decide) (by decide)
    (fun k => ⟨k, [], []⟩) .timeout
    (by
      intro k hk1 hk2
      have hk : k = 1 := by omega
      subst hk
      rfl)
    (by rfl)
  exact ⟨h.1, by simpa using h.2.1, h.2.2.1⟩

/-! ## Site crawl (`app/services/site_fetch_service.py`)

`fetch_site` is modelled on its cache-miss path.  `_fetch_single_page`
(the Bright Data call, with non-`ScraperError` exceptions converted to
`source_unavailable`) is the external `fetchPage` parameter;
`BrightDataClient.extract_inner_links`, which `fetch_site` calls but which
does not exist anywhere in the repository, is the external parameter
`extractInnerLinks` (called with the root URL, the raw root HTML and
`max_pages - 1`). -/

/-- `app/models/fetch_site.py: FetchedPage`. -/
structure FetchedPage where
  url : Str
  html : Str
  truncated : Bool
deriving DecidableEq

/-- `app/models/fetch_site.py: FetchSiteData` (`partial` is a Lean keyword,
hence `partialFlag`). -/
structure FetchSiteData where
  pages : List FetchedPage
  partialFlag : Bool
deriving DecidableEq

/-- `app/models/fetch_site.py: FetchSiteRequest`. -/
structure FetchSiteRequest where
  url : Str
  max_pages : Nat

/-- The `asyncio.gather(*tasks, return_exceptions=False)` fan-out over the
inner URLs: pages are collected in task order, and the first task failure
propagates out of the gather, aborting the whole crawl. -/
def fetchInnerPages (fetchPage : Str → Except ErrorCode Str)
    (parse : Str → List Node) (render : List Node → Str) :
    List Str → Except ErrorCode (List FetchedPage)
  | [] => .ok []
  | u :: rest => do
      let raw ← fetchPage u
      let page : FetchedPage := ⟨u, clean_html parse render raw, false⟩
      let more ← fetchInnerPages fetchPage parse render rest
      pure (page :: more)

/-- `SiteFetchService.fetch_site`, cache-miss path: fetch the root page
(a root failure propagates), extract inner links from the raw root HTML,
fetch them all, and return every page cleaned with `partial := False`
(the field is never set to true anywhere in the function). -/
def fetch_site (fetchPage : Str → Except ErrorCode Str)
    (extractInnerLinks : Str → Str → Nat → List Str)
    (parse : Str → List Node) (render : List Node → Str)
    (req : FetchSiteRequest) : Except ErrorCode FetchSiteData := do
  let root_html_raw ← fetchPage req.url
  let root_html := clean_html parse render root_html_raw
  let root_page : FetchedPage := ⟨req.url, root_html, false⟩
  let inner_urls := extractInnerLinks req.url root_html_raw (req.max_pages - 1)
  let inner_pages ← fetchInnerPages fetchPage parse render inner_urls
  pure ⟨root_page :: inner_pages, false⟩

/-- The fetch oracle for the C2 failing input: the root and the first inner
page succeed, the second inner page times out. -/
def c2Fetch : Str → Except ErrorCode Str :=
  fun u => if u = "https://site/b".data then .error .timeout else .ok "x".data

/-- The link extractor for the C2 failing input: two same-domain inner
links. -/
def c2Links : Str → Str → Nat → List Str :=
  fun _ _ _ => ["https://site/a".data, "https://site/b".data]

/-- The fetch oracle for the C2 all-success input. -/
def c2FetchOk : Str → Except ErrorCode Str := fun _ => .ok "x".data

/-- What `fetch_site` actually does on the C2 inputs: when one inner fetch
fails (root succeeded), the whole crawl aborts with that error — no partial
result with the surviving pages is returned; and on full success the result
always carries `partial = false`. -/
theorem c2_inner_failure_behavior :
    fetch_site c2Fetch c2Links (fun _ => []) (fun _ => [])
        ⟨"https://site".data, 3⟩
      = .error ErrorCode.timeout
    ∧ fetch_site c2FetchOk c2Links (fun _ => []) (fun _ => [])
        ⟨"https://site".data, 3⟩
      = .ok ⟨[⟨"https://site".data, [], false⟩,
              ⟨"https://site/a".data, [], false⟩,
              ⟨"https://site/b".data, [], false⟩], false⟩ := by
  constructor <;>
  · simp [fetch_site, fetchInnerPages, c2Fetch, c2FetchOk, c2Links,
      clean_html, build_clean_soup, cleanDoc, stripTagsList,
      cleanAttributesList, stripCommentsList]
    all_goals rfl

/-! ## Fingerprint cache (`app/repositories/cache_repo.py`)

JSON-compatible payloads (`request_params` / cached data after pydantic's
`model_dump(mode="json")`) are modelled by `JValue`; `urlv` stands for a
non-JSON-native value (such as a pydantic `HttpUrl`) whose `str()` is the
carried string — `json.dumps(..., default=str)` serializes it as that
string. -/

/-- JSON-compatible payload values. -/
inductive JValue where
  | null
  | bool (b : Bool)
  | num (n : Int)
  | str (s : Str)
  | urlv (s : Str)
  | arr (xs : List JValue)
  | obj (fields : List (Str × JValue))

/-- Python string `<` / `<=` comparison (code-point lexicographic); returns
true when `a ≤ b`. -/
def strLeB : Str → Str → Bool
  | [], _ => true
  | _ :: _, [] => false
  | a :: as, b :: bs => if a < b then true else if b < a then false else strLeB as bs

/-- Unfolding of `strLeB` on two cons cells. -/
theorem strLeB_cons (a b : Char) (as bs : Str) :
    strLeB (a :: as) (b :: bs) = true ↔ a < b ∨ (a = b ∧ strLeB as bs = true) := by
  rw [strLeB]
  by_cases h1 : a < b
  · simp [h1]
  · by_cases h2 : b < a
    · simp only [if_neg h1, if_pos h2]
      constructor
      · intro h
        exact absurd h (by decide)
      · rintro (h | ⟨rfl, h⟩)
        · exact absurd h h1
        · exact absurd h2 h1
    · have heq : a = b := le_antisymm (not_lt.mp h2) (not_lt.mp h1)
      simp [h1, h2, heq]

/-- `strLeB` is total. -/
theorem strLeB_total : ∀ a b : Str, strLeB a b = true ∨ strLeB b a = true := by
  intro a
  induction a with
  | nil => intro b; left; rfl
  | cons c r ih =>
      intro b
      match b with
      | [] => right; rfl
      | d :: bs =>
          rcases lt_trichotomy c d with h | h | h
          · left; exact (strLeB_cons c d r bs).mpr (Or.inl h)
          · subst h
            rcases ih bs with h2 | h2
            · left; exact (strLeB_cons c c r bs).mpr (Or.inr ⟨rfl, h2⟩)
            · right; exact (strLeB_cons c c bs r).mpr (Or.inr ⟨rfl, h2⟩)
          · right; exact (strLeB_cons d c bs r).mpr (Or.inl h)

/-- `strLeB` is transitive. -/
theorem strLeB_trans :
    ∀ a b c : Str, strLeB a b = true → strLeB b c = true →
      strLeB a c = true := by
  intro a
  induction a with
  | nil => intro b c _ _; rfl
  | cons x xs ih =>
      intro b c hab hbc
      match b, c with
      | [], _ => exact absurd hab (by simp [strLeB])
      | _ :: _, [] => exact absurd hbc (by simp [strLeB])
      | y :: ys, z :: zs =>
          rcases (strLeB_cons x y xs ys).mp hab with h1 | ⟨rfl, h1⟩
          · rcases (strLeB_cons y z ys zs).mp hbc with h2 | ⟨rfl, h2⟩
            · exact (strLeB_cons x z xs zs).mpr (Or.inl (lt_trans h1 h2))
            · exact (strLeB_cons x y xs zs).mpr (Or.inl h1)
          · rcases (strLeB_cons x z ys zs).mp hbc with h2 | ⟨rfl, h2⟩
            · exact (strLeB_cons x z xs zs).mpr (Or.inl h2)
            · exact (strLeB_cons x x xs zs).mpr (Or.inr ⟨rfl, ih ys zs h1 h2⟩)

/-- `strLeB` is antisymmetric. -/
theorem strLeB_antisymm :
    ∀ a b : Str, strLeB a b = true → strLeB b a = true → a = b := by
  intro a
  induction a with
  | nil =>
      intro b _ hba
      match b with
      | [] => rfl
      | _ :: _ => exact absurd hba (by simp [strLeB])
  | cons x xs ih =>
      intro b hab hba
      match b with
      | [] => exact absurd hab (by simp [strLeB])
      | y :: ys =>
          rcases (strLeB_cons x y xs ys).mp hab with h1 | ⟨rfl, h1⟩
          · rcases (strLeB_cons y x ys xs).mp hba with h2 | ⟨heq, h2⟩
            · exact absurd (lt_trans h1 h2) (lt_irrefl x)
            · exact absurd h1 (heq ▸ lt_irrefl y)
          · rcases (strLeB_cons x x ys xs).mp hba with h2 | ⟨_, h2⟩
            · exact absurd h2 (lt_irrefl x)
            · rw [ih ys h1 h2]

/-- Key order on rendered object fields (`sort_keys=True` compares keys). -/
def pairLe (p q : Str × Str) : Prop := strLeB p.1 q.1 = true

instance : DecidableRel pairLe := fun p q =>
  inferInstanceAs (Decidable (strLeB p.1 q.1 = true))

instance : IsTotal (Str × Str) pairLe := ⟨fun p q => strLeB_total p.1 q.1⟩

instance : IsTrans (Str × Str) pairLe :=
  ⟨fun p q r => strLeB_trans p.1 q.1 r.1⟩

/-- JSON string escaping as `json.dumps` with `ensure_ascii=False`: quote,
backslash and control characters escaped, everything else verbatim. -/
def escapeChar (c : Char) : Str :=
  if c = '"' then ['\\', '"']
  else if c = '\\' then ['\\', '\\']
  else if c = '\n' then ['\\', 'n']
  else if c = '\t' then ['\\', 't']
  else if c = '\r' then ['\\', 'r']
  else if c = '\x08' then ['\\', 'b']
  else if c = '\x0c' then ['\\', 'f']
  else if c.toNat < 0x20 then
    ['\\', 'u', '0', '0',
     (if c.toNat / 16 < 10 then Char.ofNat (48 + c.toNat / 16)
      else Char.ofNat (87 + c.toNat / 16)),
     (if c.toNat % 16 < 10 then Char.ofNat (48 + c.toNat % 16)
      else Char.ofNat (87 + c.toNat % 16))]
  else [c]

/-- A JSON string literal. -/
def dumpStr (s : Str) : Str := '"' :: s.flatMap escapeChar ++ ['"']

/-- Render a JSON object from its fields' keys and already-rendered values:
sort by key (`sort_keys=True`), then join with the default separators
`", "` and `": "`. -/
def renderObj (kvs : List (Str × Str)) : Str :=
  '\x7b' :: joinSep ", ".data
    ((List.insertionSort pairLe kvs).map
      (fun p => dumpStr p.1 ++ ": ".data ++ p.2)) ++ ['\x7d']

mutual
/-- `json.dumps(payload, sort_keys=True, ensure_ascii=False, default=str)`. -/
def dumpJ : JValue → Str
  | .null => "null".data
  | .bool true => "true".data
  | .bool false => "false".data
  | .num n => (toString n).data
  | .str s => dumpStr s
  | .urlv s => dumpStr s
  | .arr xs => '[' :: joinSep ", ".data (dumpList xs) ++ [']']
  | .obj fields => renderObj (dumpFields fields)
/-- Rendered array elements, in order. -/
def dumpList : List JValue → List Str
  | [] => []
  | v :: r => dumpJ v :: dumpList r
/-- Field keys paired with their rendered values, in field order. -/
def dumpFields : List (Str × JValue) → List (Str × Str)
  | [] => []
  | (k, v) :: r => (k, dumpJ v) :: dumpFields r
end

/-! ## SHA-256 (`hashlib.sha256(...).hexdigest()`)

32-bit words are naturals reduced mod `2 ^ 32`. -/

/-- Right rotation of a 32-bit word. -/
def rotr (x k : Nat) : Nat := (x / 2 ^ k + x % 2 ^ k * 2 ^ (32 - k)) % 2 ^ 32

/-- 32-bit complement. -/
def bnot32 (x : Nat) : Nat := x ^^^ (2 ^ 32 - 1)

/-- SHA-256 big sigma 0. -/
def bigSig0 (x : Nat) : Nat := rotr x 2 ^^^ rotr x 13 ^^^ rotr x 22

/-- SHA-256 big sigma 1. -/
def bigSig1 (x : Nat) : Nat := rotr x 6 ^^^ rotr x 11 ^^^ rotr x 25

/-- SHA-256 small sigma 0. -/
def smallSig0 (x : Nat) : Nat := rotr x 7 ^^^ rotr x 18 ^^^ x / 2 ^ 3

/-- SHA-256 small sigma 1. -/
def smallSig1 (x : Nat) : Nat := rotr x 17 ^^^ rotr x 19 ^^^ x / 2 ^ 10

/-- SHA-256 choose. -/
def shaCh (x y z : Nat) : Nat := (x &&& y) ^^^ (bnot32 x &&& z)

/-- SHA-256 majority. -/
def shaMaj (x y z : Nat) : Nat := (x &&& y) ^^^ (x &&& z) ^^^ (y &&& z)

/-- SHA-256 round constants. -/
def shaK : List Nat :=
  [1116352408, 1899447441, 3049323471, 3921009573, 961987163,
   1508970993, 2453635748, 2870763221, 3624381080, 310598401,
   607225278, 1426881987, 1925078388, 2162078206, 2614888103,
   3248222580, 3835390401, 4022224774, 264347078, 604807628,
   770255983, 1249150122, 1555081692, 1996064986, 2554220882,
   2821834349, 2952996808, 3210313671, 3336571891, 3584528711,
   113926993, 338241895, 666307205, 773529912, 1294757372,
   1396182291, 1695183700, 1986661051, 2177026350, 2456956037,
   2730485921, 2820302411, 3259730800, 3345764771, 3516065817,
   3600352804, 4094571909, 275423344, 430227734, 506948616,
   659060556, 883997877, 958139571, 1322822218, 1537002063,
   1747873779, 1955562222, 2024104815, 2227730452, 2361852424,
   2428436474, 2756734187, 3204031479, 3329325298]

/-- SHA-256 initial hash value. -/
def shaH0 : List Nat :=
  [1779033703, 3144134277, 1013904242, 2773480762, 1359893119,
   2600822924, 528734635, 1541459225]

/-- Big-endian 8-byte rendering of the bit length. -/
def be64 (n : Nat) : List Nat :=
  [n / 2 ^ 56 % 256, n / 2 ^ 48 % 256, n / 2 ^ 40 % 256, n / 2 ^ 32 % 256,
   n / 2 ^ 24 % 256, n / 2 ^ 16 % 256, n / 2 ^ 8 % 256, n % 256]

/-- SHA-256 padding of a byte message. -/
def sha256Pad (msg : List Nat) : List Nat :=
  let zeros := (119 - msg.length % 64) % 64
  msg ++ 0x80 :: List.replicate zeros 0 ++ be64 (msg.length * 8)

/-- Big-endian 4-byte grouping into 32-bit words. -/
def bytesToWords : List Nat → List Nat
  | b0 :: b1 :: b2 :: b3 :: r =>
      (b0 * 2 ^ 24 + b1 * 2 ^ 16 + b2 * 2 ^ 8 + b3) :: bytesToWords r
  | _ => []

/-- Extend a 16-word block to the 64-word message schedule. -/
def schedule (w : List Nat) : Nat → List Nat
  | 0 => w
  | fuel + 1 =>
      schedule
        (w ++ [(smallSig1 (w.getD (w.length - 2) 0) + w.getD (w.length - 7) 0
                 + smallSig0 (w.getD (w.length - 15) 0) + w.getD (w.length - 16) 0)
               % 2 ^ 32])
        fuel

/-- One SHA-256 compression round. -/
def shaRound (st : List Nat) (k w : Nat) : List Nat :=
  match st with
  | [a, b, c, d, e, f, g, h] =>
      let t1 := (h + bigSig1 e + shaCh e f g + k + w) % 2 ^ 32
      let t2 := (bigSig0 a + shaMaj a b c) % 2 ^ 32
      [(t1 + t2) % 2 ^ 32, a, b, c, (d + t1) % 2 ^ 32, e, f, g]
  | st => st

/-- Compress one 16-word block into the running hash. -/
def compressBlock (h0 : List Nat) (w16 : List Nat) : List Nat :=
  let ws := schedule w16 48
  let st := (shaK.zip ws).foldl (fun st p => shaRound st p.1 p.2) h0
  List.zipWith (fun x y => (x + y) % 2 ^ 32) h0 st

/-- Split a word list into 16-word blocks (`n` = number of blocks). -/
def chunks16 : Nat → List Nat → List (List Nat)
  | 0, _ => []
  | n + 1, ws => ws.take 16 :: chunks16 n (ws.drop 16)

/-- Lowercase hexadecimal digit. -/
def hexDigitLower (n : Nat) : Char :=
  if n < 10 then Char.ofNat (48 + n) else Char.ofNat (87 + n)

/-- Lowercase 8-digit hexadecimal rendering of a 32-bit word. -/
def wordHex (w : Nat) : Str :=
  [hexDigitLower (w / 16 ^ 7 % 16), hexDigitLower (w / 16 ^ 6 % 16),
   hexDigitLower (w / 16 ^ 5 % 16), hexDigitLower (w / 16 ^ 4 % 16),
   hexDigitLower (w / 16 ^ 3 % 16), hexDigitLower (w / 16 ^ 2 % 16),
   hexDigitLower (w / 16 % 16), hexDigitLower (w % 16)]

/-- `hashlib.sha256(bytes).hexdigest()`. -/
def sha256Hex (msg : List Nat) : Str :=
  let ws := bytesToWords (sha256Pad msg)
  let blocks := chunks16 (ws.length / 16) ws
  (blocks.foldl compressBlock shaH0).flatMap wordHex

/-- Validation of the SHA-256 embedding on the standard test vector. -/
theorem sha256Hex_abc :
    sha256Hex [0x61, 0x62, 0x63]
      = "ba7816bf8f01cfea414140de5dae2223b00361a396177a9cb410ff61f20015ad".data := by
  decide

/-- `CacheRepo._make_hash` on an already-JSON-compatible payload: sha256 of
the UTF-8 encoding of the sorted-keys JSON dump. -/
def make_hash (payload : JValue) : Str :=
  sha256Hex ((dumpJ payload).flatMap (fun c => utf8Bytes c.toNat))

/-- Python dict update-or-append (dict-literal merge semantics): an existing
key keeps its position and takes the new value, a new key is appended. -/
def pyDictInsert (base : List (Str × JValue)) (kv : Str × JValue) :
    List (Str × JValue) :=
  if (base.find? (fun p => p.1 = kv.1)).isSome then
    base.map (fun p => if p.1 = kv.1 then (p.1, kv.2) else p)
  else base ++ [kv]

/-- `{"engine": engine, **params}` — start from the `engine` binding and
merge the params in order. -/
def pyDictLit (base : List (Str × JValue)) (updates : List (Str × JValue)) :
    List (Str × JValue) :=
  updates.foldl pyDictInsert base

/-- `CacheRepo.serp_request_hash`. -/
def serp_request_hash (engine : Str) (params : List (Str × JValue)) : Str :=
  make_hash (.obj (pyDictLit [("engine".data, .str engine)] params))

/-- `CacheRepo.site_request_hash`. -/
def site_request_hash (params : JValue) : Str := make_hash params

/-- `dumpFields` only renders each value in place. -/
theorem dumpFields_eq_map (l : List (Str × JValue)) :
    dumpFields l = l.map (fun p => (p.1, dumpJ p.2)) := by
  induction l with
  | nil => simp [dumpFields]
  | cons p r ih =>
      rcases p with ⟨k, v⟩
      simp [dumpFields, ih]

/-- Sorting by key maps permuted field lists with pairwise-distinct keys to
the same list. -/
theorem insertionSort_eq_of_perm (l₁ l₂ : List (Str × Str))
    (hp : l₁.Perm l₂) (hnd : l₁.Pairwise (fun a b => a.1 ≠ b.1)) :
    List.insertionSort pairLe l₁ = List.insertionSort pairLe l₂ := by
  have antisymm :
      IsAntisymm (Str × Str) (fun a b => pairLe a b ∧ a.1 ≠ b.1) :=
    ⟨fun a b hab hba => absurd (strLeB_antisymm _ _ hab.1 hba.1) hab.2⟩
  have hperm : (List.insertionSort pairLe l₁).Perm
      (List.insertionSort pairLe l₂) :=
    ((List.perm_insertionSort pairLe l₁).trans hp).trans
      (List.perm_insertionSort pairLe l₂).symm
  have hnd₁ : (List.insertionSort pairLe l₁).Pairwise
      (fun a b => a.1 ≠ b.1) :=
    ((List.perm_insertionSort pairLe l₁).pairwise_iff (fun h => Ne.symm h)).mpr hnd
  have hnd₂ : (List.insertionSort pairLe l₂).Pairwise
      (fun a b => a.1 ≠ b.1) :=
    ((List.perm_insertionSort pairLe l₂).pairwise_iff (fun h => Ne.symm h)).mpr
      ((hp.pairwise_iff (fun h => Ne.symm h)).mp hnd)
  exact List.eq_of_perm_of_sorted (r := fun a b => pairLe a b ∧ a.1 ≠ b.1)
    hperm
    ((List.sorted_insertionSort pairLe l₁).and hnd₁)
    ((List.sorted_insertionSort pairLe l₂).and hnd₂)

/-- `_make_hash` on an object is invariant under field permutation when the
keys are pairwise distinct. -/
theorem make_hash_obj_perm (f₁ f₂ : List (Str × JValue))
    (hp : f₁.Perm f₂) (hnd : f₁.Pairwise (fun a b => a.1 ≠ b.1)) :
    make_hash (.obj f₁) = make_hash (.obj f₂) := by
  unfold make_hash
  have hd : dumpJ (.obj f₁) = dumpJ (.obj f₂) := by
    rw [dumpJ, dumpJ]
    unfold renderObj
    rw [dumpFields_eq_map, dumpFields_eq_map]
    rw [insertionSort_eq_of_perm _ _
      (hp.map (fun p => (p.1, dumpJ p.2)))
      (List.pairwise_map.mpr (by simpa using hnd))]
  rw [hd]

/-- Merging updates whose keys are fresh and pairwise distinct appends
them. -/
theorem pyDictLit_append :
    ∀ (f : List (Str × JValue)) (base : List (Str × JValue)),
      (∀ kv ∈ f, ∀ p ∈ base, kv.1 ≠ p.1) →
      f.Pairwise (fun a b => a.1 ≠ b.1) →
      pyDictLit base f = base ++ f := by
  intro f
  induction f with
  | nil => intro base _ _; simp [pyDictLit]
  | cons kv r ih =>
      intro base hfresh hnd
      have hfind : base.find? (fun p => p.1 = kv.1) = none := by
        rw [List.find?_eq_none]
        intro p hp
        simp only [decide_eq_true_eq]
        exact fun hc => hfresh kv (List.mem_cons_self kv r) p hp hc.symm
      have hstep : pyDictInsert base kv = base ++ [kv] := by
        rw [pyDictInsert, hfind]
        simp
      have hrest : pyDictLit (base ++ [kv]) r = (base ++ [kv]) ++ r := by
        apply ih
        · intro kv' hkv' p hp
          rcases List.mem_append.mp hp with h | h
          · exact hfresh kv' (List.mem_cons_of_mem kv hkv') p h
          · rw [List.mem_singleton.mp h]
            exact fun hc =>
              (List.pairwise_cons.mp hnd).1 kv' hkv' hc.symm
        · exact (List.pairwise_cons.mp hnd).2
      calc pyDictLit base (kv :: r)
          = pyDictLit (pyDictInsert base kv) r := rfl
        _ = pyDictLit (base ++ [kv]) r := by rw [hstep]
        _ = (base ++ [kv]) ++ r := hrest
        _ = base ++ kv :: r := by simp

mutual
/-- Replace every non-JSON-native value by its string representation (the
normalization `default=str` applies during serialization). -/
def normalizeUrls : JValue → JValue
  | .null => .null
  | .bool b => .bool b
  | .num n => .num n
  | .str s => .str s
  | .urlv s => .str s
  | .arr xs => .arr (normalizeUrlsList xs)
  | .obj fields => .obj (normalizeUrlsFields fields)
/-- `normalizeUrls` on array elements. -/
def normalizeUrlsList : List JValue → List JValue
  | [] => []
  | v :: r => normalizeUrls v :: normalizeUrlsList r
/-- `normalizeUrls` on object fields. -/
def normalizeUrlsFields : List (Str × JValue) → List (Str × JValue)
  | [] => []
  | (k, v) :: r => (k, normalizeUrls v) :: normalizeUrlsFields r
end

mutual
/-- The dump is blind to URL-versus-string representation. -/
theorem dumpJ_normalizeUrls (v : JValue) : dumpJ (normalizeUrls v) = dumpJ v := by
  match v with
  | .null => rfl
  | .bool b => rfl
  | .num n => rfl
  | .str s => rfl
  | .urlv s => rfl
  | .arr xs =>
      have h := dumpList_normalizeUrls xs
      simp [normalizeUrls, dumpJ, h]
  | .obj fields =>
      have h := dumpFields_normalizeUrls fields
      simp [normalizeUrls, dumpJ, h]
/-- The dump is blind to URL-versus-string representation (arrays). -/
theorem dumpList_normalizeUrls (xs : List JValue) :
    dumpList (normalizeUrlsList xs) = dumpList xs := by
  match xs with
  | [] => rfl
  | v :: r =>
      have h1 := dumpJ_normalizeUrls v
      have h2 := dumpList_normalizeUrls r
      simp [normalizeUrlsList, dumpList, h1, h2]
/-- The dump is blind to URL-versus-string representation (fields). -/
theorem dumpFields_normalizeUrls (fields : List (Str × JValue)) :
    dumpFields (normalizeUrlsFields fields) = dumpFields fields := by
  match fields with
  | [] => rfl
  | (k, v) :: r =>
      have h1 := dumpJ_normalizeUrls v
      have h2 := dumpFields_normalizeUrls r
      simp [normalizeUrlsFields, dumpFields, h1, h2]
end

/-- C7: the cache fingerprint is deterministic (a function of its payload)
and order-independent: for either scope (SERP, with the engine folded into
the hashed object, or site), structurally equal parameter objects whose
fields are permuted hash identically (keys pairwise distinct, as for Python
dicts); and a payload hashes the same whether a non-primitive value (URL) is
normalized to its string or not. -/
theorem c7_fingerprint_order_independent :
    (∀ (engine : Str) (f₁ f₂ : List (Str × JValue)),
        f₁.Perm f₂ →
        (("engine".data, JValue.str engine) :: f₁).Pairwise
          (fun a b => a.1 ≠ b.1) →
        serp_request_hash engine f₁ = serp_request_hash engine f₂)
    ∧ (∀ (f₁ f₂ : List (Str × JValue)),
        f₁.Perm f₂ → f₁.Pairwise (fun a b => a.1 ≠ b.1) →
        site_request_hash (.obj f₁) = site_request_hash (.obj f₂))
    ∧ (∀ v : JValue, make_hash (normalizeUrls v) = make_hash v) := by
  refine ⟨?_, ?_, ?_⟩
  · intro engine f₁ f₂ hp hnd
    obtain ⟨hfresh, hnd₁⟩ := List.pairwise_cons.mp hnd
    have heq₁ : pyDictLit [("engine".data, JValue.str engine)] f₁
        = ("engine".data, JValue.str engine) :: f₁ := by
      rw [pyDictLit_append f₁ _ ?_ hnd₁]
      · simp
      · intro kv hkv p hp'
        rw [List.mem_singleton.mp hp']
        exact fun hc => hfresh kv hkv hc.symm
    have heq₂ : pyDictLit [("engine".data, JValue.str engine)] f₂
        = ("engine".data, JValue.str engine) :: f₂ := by
      rw [pyDictLit_append f₂ _ ?_
        ((hp.pairwise_iff (fun h => Ne.symm h)).mp hnd₁)]
      · simp
      · intro kv hkv p hp'
        rw [List.mem_singleton.mp hp']
        exact fun hc => hfresh kv (hp.mem_iff.mpr hkv) hc.symm
    unfold serp_request_hash
    rw [heq₁, heq₂]
    exact make_hash_obj_perm _ _ (hp.cons _) hnd
  · intro f₁ f₂ hp hnd
    exact make_hash_obj_perm f₁ f₂ hp hnd
  · intro v
    unfold make_hash
    rw [dumpJ_normalizeUrls]

/-- Fields in one incidental order. -/
def c7F1 : List (Str × JValue) :=
  [("b".data, .num 1), ("a".data, .str "x".data)]

/-- The same logical fields, permuted. -/
def c7F2 : List (Str × JValue) :=
  [("a".data, .str "x".data), ("b".data, .num 1)]

/-- Witness for C7 at concrete permuted parameter objects and a concrete
URL payload. -/
theorem c7_fingerprint_order_independent_witness :
    serp_request_hash "google".data c7F1 = serp_request_hash "google".data c7F2
    ∧ site_request_hash (.obj c7F1) = site_request_hash (.obj c7F2)
    ∧ make_hash (normalizeUrls (.urlv "https://e.com".data))
        = make_hash (.urlv "https://e.com".data) := by
  have hperm : c7F1.Perm c7F2 :=
    List.Perm.swap ("a".data, JValue.str "x".data) ("b".data, .num 1) []
  refine ⟨?_, ?_, c7_fingerprint_order_independent.2.2 _⟩
  · apply c7_fingerprint_order_independent.1 "google".data c7F1 c7F2 hperm
    refine List.pairwise_cons.mpr ⟨?_, ?_⟩
    · intro p hp
      rcases List.mem_cons.mp hp with h | h
      · rw [h]; decide
      · rw [List.mem_singleton.mp h]; decide
    · refine List.pairwise_cons.mpr ⟨?_, List.pairwise_singleton _ _⟩
      intro p hp
      rw [List.mem_singleton.mp hp]
      decide
  · apply c7_fingerprint_order_independent.2.1 c7F1 c7F2 hperm
    refine List.pairwise_cons.mpr ⟨?_, List.pairwise_singleton _ _⟩
    intro p hp
    rw [List.mem_singleton.mp hp]
    decide

/-- A row of the `serp_cache` table. -/
structure SerpCacheRow where
  engine : Str
  request_hash : Str
  request_params : JValue
  response_data : JValue
  created_at : Nat
  expires_at : Nat

/-- A row of the `site_cache` table. -/
structure SiteCacheRow where
  request_hash : Str
  request_params : JValue
  response_data : JValue
  created_at : Nat
  expires_at : Nat

/-- The cache database state; rows kept in insertion order. -/
structure CacheDB where
  serp_rows : List SerpCacheRow
  site_rows : List SiteCacheRow

/-- `CacheRepo.get_serp`: select a row matching engine and hash with
`expires_at > now`, `limit 1` (the select carries no ordering; the model
takes the first matching row in insertion order — under the service's
store-only-after-miss discipline at most one live row matches). -/
def get_serp (db : CacheDB) (engine request_hash : Str) (now : Nat) :
    Option SerpCacheRow :=
  db.serp_rows.find? (fun r =>
    r.engine = engine && r.request_hash = request_hash && now < r.expires_at)

/-- `CacheRepo.save_serp`: append a fresh row with
`expires_at = now + ttl` (`ttl = settings.cache_ttl_sec`). -/
def save_serp (db : CacheDB) (engine request_hash : Str)
    (request_params response_data : JValue) (ttl now : Nat) : CacheDB :=
  { db with
    serp_rows := db.serp_rows
      ++ [⟨engine, request_hash, request_params, response_data, now,
           now + ttl⟩] }

/-- `CacheRepo.get_site`. -/
def get_site (db : CacheDB) (request_hash : Str) (now : Nat) :
    Option SiteCacheRow :=
  db.site_rows.find? (fun r =>
    r.request_hash = request_hash && now < r.expires_at)

/-- `CacheRepo.save_site` (after request-params normalization). -/
def save_site (db : CacheDB) (request_hash : Str)
    (request_params response_data : JValue) (ttl now : Nat) : CacheDB :=
  { db with
    site_rows := db.site_rows
      ++ [⟨request_hash, request_params, response_data, now, now + ttl⟩] }

/-- C8: for either scope, storing at `t0` into a state with no live matching
entry (the state in which the service ever stores, having just missed) and
looking up at `t0 ≤ t < t0 + ttl` returns the stored snapshot; looking up at
`t ≥ t0 + ttl` misses; and, unconditionally, a lookup only ever returns a
row whose `expires_at` is strictly greater than the current time. -/
theorem c8_cache_ttl (db : CacheDB) (engine request_hash : Str)
    (params data : JValue) (ttl t0 : Nat)
    (hmiss_serp : get_serp db engine request_hash t0 = none)
    (hmiss_site : get_site db request_hash t0 = none) :
    (∀ t, t0 ≤ t → t < t0 + ttl →
      get_serp (save_serp db engine request_hash params data ttl t0)
          engine request_hash t
        = some ⟨engine, request_hash, params, data, t0, t0 + ttl⟩)
    ∧ (∀ t, t0 + ttl ≤ t →
      get_serp (save_serp db engine request_hash params data ttl t0)
          engine request_hash t
        = none)
    ∧ (∀ (db' : CacheDB) (now : Nat) (r : SerpCacheRow),
        get_serp db' engine request_hash now = some r → now < r.expires_at)
    ∧ (∀ t, t0 ≤ t → t < t0 + ttl →
      get_site (save_site db request_hash params data ttl t0) request_hash t
        = some ⟨request_hash, params, data, t0, t0 + ttl⟩)
    ∧ (∀ t, t0 + ttl ≤ t →
      get_site (save_site db request_hash params data ttl t0) request_hash t
        = none)
    ∧ (∀ (db' : CacheDB) (now : Nat) (r : SiteCacheRow),
        get_site db' request_hash now = some r → now < r.expires_at) := by
  have hserp_old : ∀ t, t0 ≤ t →
      db.serp_rows.find? (fun r =>
        r.engine = engine && r.request_hash = request_hash
          && t < r.expires_at) = none := by
    intro t ht
    rw [List.find?_eq_none]
    intro r hr
    have hr0 := List.find?_eq_none.mp hmiss_serp r hr
    simp only [Bool.and_eq_true, decide_eq_true_eq, not_and] at hr0 ⊢
    intro h1 h2
    exact hr0 h1 (lt_of_le_of_lt ht h2)
  have hsite_old : ∀ t, t0 ≤ t →
      db.site_rows.find? (fun r =>
        r.request_hash = request_hash && t < r.expires_at) = none := by
    intro t ht
    rw [List.find?_eq_none]
    intro r hr
    have hr0 := List.find?_eq_none.mp hmiss_site r hr
    simp only [Bool.and_eq_true, decide_eq_true_eq, not_and] at hr0 ⊢
    intro h1 h3
    exact hr0 h1 (lt_of_le_of_lt ht h3)
  refine ⟨?_, ?_, ?_, ?_, ?_, ?_⟩
  · intro t ht1 ht2
    unfold get_serp save_serp
    rw [List.find?_append, hserp_old t ht1]
    simp [List.find?, ht2]
  · intro t ht
    unfold get_serp save_serp
    rw [List.find?_append, hserp_old t (by omega)]
    simp [List.find?, Nat.not_lt.mpr ht]
  · intro db' now r hfind
    have := List.find?_some hfind
    simp only [Bool.and_eq_true, decide_eq_true_eq] at this
    exact this.2
  · intro t ht1 ht2
    unfold get_site save_site
    rw [List.find?_append, hsite_old t ht1]
    simp [List.find?, ht2]
  · intro t ht
    unfold get_site save_site
    rw [List.find?_append, hsite_old t (by omega)]
    simp [List.find?, Nat.not_lt.mpr ht]
  · intro db' now r hfind
    have := List.find?_some hfind
    simp only [Bool.and_eq_true, decide_eq_true_eq] at this
    exact this.2

/-- Witness for C8: the empty database, `ttl = 10`, store at time 0, lookups
at times 5 (hit with the stored snapshot) and 10 (miss). -/
theorem c8_cache_ttl_witness :
    get_serp (save_serp ⟨[], []⟩ "google".data "h".data .null .null 10 0)
        "google".data "h".data 5
      = some ⟨"google".data, "h".data, .null, .null, 0, 10⟩
    ∧ get_serp (save_serp ⟨[], []⟩ "google".data "h".data .null .null 10 0)
        "google".data "h".data 10
      = none
    ∧ get_site (save_site ⟨[], []⟩ "h".data .null .null 10 0) "h".data 5
      = some ⟨"h".data, .null, .null, 0, 10⟩
    ∧ get_site (save_site ⟨[], []⟩ "h".data .null .null 10 0) "h".data 10
      = none := by
  have h := c8_cache_ttl ⟨[], []⟩ "google".data "h".data .null .null 10 0
    (by rw [get_serp]; rfl) (by rw [get_site]; rfl)
  exact ⟨h.1 5 (by omega) (by omega), h.2.1 10 (by omega),
    h.2.2.2.1 5 (by omega) (by omega), h.2.2.2.2.1 10 (by omega)⟩
